import Mathlib

/-!
Verification of cppmath: the AABB intersection test and the cached polygon.

A shallow embedding of `include/math/geometry/{Vector.inl, Point2.hpp, AABB.inl, Polygon.hpp}`.
The scalar type `T` is instantiated with exact rational arithmetic (`ℚ`).
Loops written with `_FOREACH_VECTOR` are unrolled for `N = 2`.
-/

namespace CppMath

/-! ## Helpers of `math.hpp` -/

/-- Modelled from the spec: `math::sign` (`math.hpp` is not among the sources) returns -1, 0 or
+1 for a negative, zero or positive argument. -/
def sign (x : ℚ) : ℤ :=
  if x < 0 then -1 else if x = 0 then 0 else 1

/-- Modelled from the spec: `math::wrap(i, n)` (`math.hpp` is not among the sources) takes the
index `i` modulo `n`. -/
def wrap (i n : Nat) : Nat := i % n

/-! ## `Vector<T, 2>` -/

/-- The two components `_data[0]`, `_data[1]` of a `Vec2<T>`, also reachable as `x` and `y`. -/
structure Vec2 where
  x : ℚ
  y : ℚ
deriving DecidableEq

namespace Vec2

/-- Modelled from the spec: the default constructor `Vec2<T>()` (declared in `Vector.hpp`, not
among the sources) gives the zero vector; `AABB::crop` builds its "null rect" from it. -/
def zero : Vec2 := ⟨0, 0⟩

/-- Operator `Vector::operator+=`: the loop body is `_data[i] += p[i]`; the value given is
`*this` after the loop (the source has no `return *this;`, and `operator+`, its only caller
here, does not read the returned reference). -/
def addAssign (self p : Vec2) : Vec2 :=
  ⟨self.x + p.x, self.y + p.y⟩

/-- Operator `Vector::operator+`: `type vec(*this); vec += p; return vec;`. -/
def add (self p : Vec2) : Vec2 :=
  let vec := self
  let vec := addAssign vec p
  vec

/-- Operator `Vector::operator-()`: copies `*this`, negates every component, returns the copy. -/
def neg (self : Vec2) : Vec2 :=
  let vec := self
  ⟨-vec.x, -vec.y⟩

/-- Operator `Vector::operator-(const type&)`: `type vec(*this);` followed by the loop whose
body is the expression statement `vec[i] - p[i];`. The difference is computed and dropped,
`vec` is never assigned, and the function has no `return` statement, so C++ leaves the value
of the call indeterminate. The value taken here is the local `vec` as the loop leaves it, the
only object of the result type the body builds; it stands for a value the source does not
fix, and only the fact that no difference is ever stored is read off it. -/
def sub (self _p : Vec2) : Vec2 :=
  let vec := self
  vec

/-- Operator `Vector::operator<`: `false` as soon as some `_data[i] >= p[i]`, else `true`. -/
def lt (self p : Vec2) : Bool :=
  if self.x ≥ p.x then false
  else if self.y ≥ p.y then false
  else true

/-- Operator `Vector::operator>`: `false` as soon as some `_data[i] <= p[i]`, else `true`. -/
def gt (self p : Vec2) : Bool :=
  if self.x ≤ p.x then false
  else if self.y ≤ p.y then false
  else true

/-- Operator `Vector::operator<=`: `return !(*this > p);`. -/
def le (self p : Vec2) : Bool := !(gt self p)

/-- Operator `Vector::operator>=`: `return !(*this < p);`. -/
def ge (self p : Vec2) : Bool := !(lt self p)

/-- Operator `Vector::operator!=`: `true` as soon as some component differs, else `false`. -/
def ne (self p : Vec2) : Bool :=
  if self.x ≠ p.x then true
  else if self.y ≠ p.y then true
  else false

/-- Operator `Vector::operator==`: `return !(*this != p);`. -/
def eq (self p : Vec2) : Bool := !(ne self p)

/-- Method `Vector::cross` for `N = 2`: `rhs.y * this->x - rhs.x * this->y`. -/
def cross (self rhs : Vec2) : ℚ :=
  rhs.y * self.x - rhs.x * self.y

end Vec2

/-! ## `Intersection<T>` and `AABB<T>` -/

/-- Modelled from the spec: `Intersection<T>` (`Intersection.hpp` is not among the sources) is
either the empty "no collision" state built by `Intersection<T>()` or a penetration vector
`delta` built by `Intersection<T>(Vec2<T>)`. -/
inductive Intersection where
  | empty : Intersection
  | overlap (delta : Vec2) : Intersection
deriving DecidableEq

/-- Type `AABB<T>`: origin `pos` and extent `size`. -/
structure AABB where
  pos : Vec2
  size : Vec2
deriving DecidableEq

namespace AABB

/-- Constructor `AABB<T>::AABB()`: both members default constructed. -/
def null : AABB := ⟨Vec2.zero, Vec2.zero⟩

/-- Method `AABB<T>::contains(const Vec2<T>&)`: `point >= pos && point < pos + size`. -/
def contains (self : AABB) (point : Vec2) : Bool :=
  Vec2.ge point self.pos && Vec2.lt point (Vec2.add self.pos self.size)

/-- Method `AABB<T>::contains(const AABB<T>&)`:
`contains(rect.pos) && contains(rect.pos + rect.size)`. -/
def containsBox (self rect : AABB) : Bool :=
  self.contains rect.pos && self.contains (Vec2.add rect.pos rect.size)

/-- Method `AABB<T>::intersect`. -/
def intersect (self other : AABB) : Intersection :=
  let dx := (other.pos.x + other.size.x / 2) - (self.pos.x + self.size.x / 2)
  let px := (other.size.x / 2 + self.size.x / 2) - |dx|
  if px ≤ 0 then Intersection.empty
  else
    let dy := (other.pos.y + other.size.y / 2) - (self.pos.y + self.size.y / 2)
    let py := (other.size.y / 2 + self.size.y / 2) - |dy|
    if py ≤ 0 then Intersection.empty
    else Intersection.overlap ⟨px * (sign dx : ℚ), py * (sign dy : ℚ)⟩

/-- The box moved by the vector `d` (same extent). -/
def translate (self : AABB) (d : Vec2) : AABB :=
  ⟨Vec2.add self.pos d, self.size⟩

end AABB

/-! ## `Point2<T>` -/

/-- Type `Point2<T>`: the members `x`, `y`, also reachable as `data[0]`, `data[1]`. -/
structure Point2 where
  x : ℚ
  y : ℚ
deriving DecidableEq

namespace Point2

/-- Constructor `Point2()`: `x(0), y(0)`. -/
def origin : Point2 := ⟨0, 0⟩

/-- Method `Point2::toVector` (spelled `asVector` by its caller in `Polygon.hpp`):
`Vector2<T>(x, y)`. -/
def asVector (self : Point2) : Vec2 := ⟨self.x, self.y⟩

/-- Operator `Point2::operator-(const Point2&)`: `Vector2<T>(x - p2.x, y - p2.y)`. -/
def sub (self p2 : Point2) : Vec2 := ⟨self.x - p2.x, self.y - p2.y⟩

end Point2

/-! ## `AbstractPolygon<T>`: recomputation of the derived properties

The pure virtual accessors `size()` and `get(i)` are read off the vertex sequence `pts` held by
the concrete subtype. -/

namespace AbstractPolygon

/-- Accessor `size()`. -/
def size (pts : List Point2) : Nat := pts.length

/-- Accessor `get(i)`, for `i < size()`. -/
def get (pts : List Point2) (i : Nat) : Point2 := pts.getD i Point2.origin

/-- The loop `for (i = 1; i < size(); ++i)` of `_calculateBBox`, with the inner loop over
`k = 0, 1` unrolled; the first argument counts the iterations still to run. -/
def bboxLoop (pts : List Point2) : Nat → Nat → Vec2 × Vec2 → Vec2 × Vec2
  | 0, _, acc => acc
  | n + 1, i, (mn, mx) =>
    let p := get pts i
    bboxLoop pts n (i + 1) (⟨min mn.x p.x, min mn.y p.y⟩, ⟨max mx.x p.x, max mx.y p.y⟩)

/-- One iteration of the loop of `_calculateBBox` on the vertex `p`: both components of `min`
and `max` are updated. -/
def bboxStep (acc : Vec2 × Vec2) (p : Point2) : Vec2 × Vec2 :=
  (⟨min acc.1.x p.x, min acc.1.y p.y⟩, ⟨max acc.2.x p.x, max acc.2.y p.y⟩)

/-- Method `AbstractPolygon<T>::_calculateBBox`; the extent is `max - min` as `Vector::operator-`
yields it. -/
def _calculateBBox (pts : List Point2) : AABB :=
  if size pts < 2 then AABB.null
  else
    let acc := bboxLoop pts (size pts - 1) 1 ((get pts 0).asVector, (get pts 0).asVector)
    ⟨acc.1, Vec2.sub acc.2 acc.1⟩

/-- The sign computed at vertex `i` by `_calculateConvex`:
`sign(a.cross(b))` with `a = get(wrap(i+1)) - get(i)` and `b = get(wrap(i+2)) - get(i)`. -/
def turnSign (pts : List Point2) (i : Nat) : ℤ :=
  let a := (get pts (wrap (i + 1) (size pts))).sub (get pts i)
  let b := (get pts (wrap (i + 2) (size pts))).sub (get pts i)
  sign (a.cross b)

/-- The loop `for (i = 0; i < size(); ++i)` of `_calculateConvex`; the first argument counts
the iterations still to run, the last one is the local `sign`. -/
def convexLoop (pts : List Point2) : Nat → Nat → ℤ → Bool
  | 0, _, _ => true
  | n + 1, i, sgn =>
    let newsign := turnSign pts i
    if i = 0 then convexLoop pts n (i + 1) newsign
    else if newsign ≠ 0 ∧ sgn ≠ newsign then false
    else convexLoop pts n (i + 1) sgn

/-- Method `AbstractPolygon<T>::_calculateConvex`. The local `sign` is declared without a value and
assigned in the first iteration; it starts here as `0`, which is never read. -/
def _calculateConvex (pts : List Point2) : Bool :=
  if size pts ≤ 3 then true
  else convexLoop pts (size pts) 0 0

end AbstractPolygon

/-! ## `BasePolygon<T>`: the cached properties -/

/-- Modelled from the spec: `NormalDirection` (declared outside the sources): which side is
"outward": none, front, back or both. -/
inductive NormalDirection where
  | NormalNone | NormalFront | NormalBack | NormalBoth
deriving DecidableEq

/-- Modelled from the spec: `intersect(const AABB<T>&, const Point2<T>&)` (`intersect.hpp` is
not among the sources) tells whether the point is contained within the box, that is
`point >= pos` and `point < pos + size` component-wise (half-open on each axis). -/
def intersectPoint (box : AABB) (p : Point2) : Bool :=
  decide (box.pos.x ≤ p.x ∧ p.x < box.pos.x + box.size.x ∧
          box.pos.y ≤ p.y ∧ p.y < box.pos.y + box.size.y)

/-- The state of a `BasePolygon<T>`: the flags of `AbstractPolygon`, the vertex sequence of the
concrete subtype, and the four `mutable` cache members. -/
structure BasePolygon where
  closed : Bool
  filled : Bool
  normaldir : NormalDirection
  pts : List Point2
  _bbox : AABB
  _convex : Bool
  _bboxdirty : Bool
  _convexdirty : Bool
deriving DecidableEq

namespace BasePolygon

/-- Constructor `BasePolygon(bool closed, bool filled, NormalDirection ndir)`; `init` are the
vertices a derived class may have put in its storage. -/
def create (closed filled : Bool) (ndir : NormalDirection) (init : List Point2) : BasePolygon :=
  { closed := closed, filled := filled, normaldir := ndir, pts := init,
    _bbox := AABB.null, _convex := false, _bboxdirty := true, _convexdirty := true }

/-- Constructor `BasePolygon()`: delegates to `AbstractPolygon(true, true, NormalBoth)`. -/
def createDefault (init : List Point2) : BasePolygon :=
  create true true NormalDirection.NormalBoth init

/-- Modelled from the spec: `_add` of the concrete subtype appends the point to its storage. -/
def _add (pts : List Point2) (point : Point2) : List Point2 := pts ++ [point]

/-- Modelled from the spec: `_edit` of the concrete subtype replaces vertex `i`. -/
def _edit (pts : List Point2) (i : Nat) (p : Point2) : List Point2 := pts.set i p

/-- Modelled from the spec: `_insert` of the concrete subtype puts the point before vertex `i`. -/
def _insert (pts : List Point2) (i : Nat) (p : Point2) : List Point2 := pts.insertIdx i p

/-- Modelled from the spec: `_remove` of the concrete subtype erases vertex `i`. -/
def _remove (pts : List Point2) (i : Nat) : List Point2 := pts.eraseIdx i

/-- Modelled from the spec: `_clear` of the concrete subtype empties its storage. -/
def _clear (_pts : List Point2) : List Point2 := []

/-- Method `BasePolygon<T>::add`. -/
def add (self : BasePolygon) (point : Point2) : BasePolygon :=
  let pts := _add self.pts point
  let bboxdirty :=
    if !intersectPoint self._bbox (AbstractPolygon.get pts (AbstractPolygon.size pts - 1))
    then true else self._bboxdirty
  { self with pts := pts, _bboxdirty := bboxdirty, _convexdirty := true }

/-- Method `BasePolygon<T>::edit`. -/
def edit (self : BasePolygon) (i : Nat) (p : Point2) : BasePolygon :=
  { self with pts := _edit self.pts i p, _bboxdirty := true, _convexdirty := true }

/-- Method `BasePolygon<T>::insert`. -/
def insert (self : BasePolygon) (i : Nat) (p : Point2) : BasePolygon :=
  let pts := _insert self.pts i p
  let bboxdirty :=
    if !intersectPoint self._bbox (AbstractPolygon.get pts i) then true else self._bboxdirty
  { self with pts := pts, _bboxdirty := bboxdirty, _convexdirty := true }

/-- Method `BasePolygon<T>::remove`. -/
def remove (self : BasePolygon) (i : Nat) : BasePolygon :=
  { self with pts := _remove self.pts i, _bboxdirty := true, _convexdirty := true }

/-- Method `BasePolygon<T>::clear`. -/
def clear (self : BasePolygon) : BasePolygon :=
  { self with pts := _clear self.pts, _bboxdirty := true, _convexdirty := true }

/-- Method `BasePolygon<T>::getBBox`: the returned box and the state with the `mutable`
members as the call leaves them. -/
def getBBox (self : BasePolygon) : AABB × BasePolygon :=
  if self._bboxdirty then
    let s := { self with _bbox := AbstractPolygon._calculateBBox self.pts, _bboxdirty := false }
    (s._bbox, s)
  else (self._bbox, self)

/-- Method `BasePolygon<T>::isConvex`: the returned flag and the state with the `mutable`
members as the call leaves them. -/
def isConvex (self : BasePolygon) : Bool × BasePolygon :=
  if self._convexdirty then
    let s := { self with _convex := AbstractPolygon._calculateConvex self.pts,
                         _convexdirty := false }
    (s._convex, s)
  else (self._convex, self)

/-- The operations of the public interface. -/
inductive Op where
  | add (point : Point2)
  | edit (i : Nat) (p : Point2)
  | insert (i : Nat) (p : Point2)
  | remove (i : Nat)
  | clear
  | getBBox
  | isConvex

/-- One call on the polygon; the getters keep only the state they leave behind. -/
def step (s : BasePolygon) : Op → BasePolygon
  | Op.add point => s.add point
  | Op.edit i p => s.edit i p
  | Op.insert i p => s.insert i p
  | Op.remove i => s.remove i
  | Op.clear => s.clear
  | Op.getBBox => s.getBBox.2
  | Op.isConvex => s.isConvex.2

/-- A sequence of calls, first to last. -/
def run (s : BasePolygon) (ops : List Op) : BasePolygon := ops.foldl step s

/-- The cache invariant: a clean flag means the cached value equals the recomputation from the
current vertex sequence. -/
def CacheInv (s : BasePolygon) : Prop :=
  (s._bboxdirty = false → s._bbox = AbstractPolygon._calculateBBox s.pts) ∧
  (s._convexdirty = false → s._convex = AbstractPolygon._calculateConvex s.pts)

end BasePolygon

/-! ## `foreachSegment` -/

/-- Modelled from the spec: the kinds of `Line2<T>` (`Line2.hpp` is not among the sources): an
infinite line or a finite segment. -/
inductive LineType where
  | Line | Segment
deriving DecidableEq

/-- Modelled from the spec: `Line2<T>` (`Line2.hpp` is not among the sources) as its
constructor call `Line2<T>(p1, p2, type)` builds it. -/
structure Line2 where
  p1 : Point2
  p2 : Point2
  type : LineType
deriving DecidableEq

namespace AbstractPolygon

/-- Method `AbstractPolygon<T>::getSegment`: `Line2<T>(get(i), get(j), Segment)`. -/
def getSegment (pts : List Point2) (i j : Nat) : Line2 :=
  ⟨get pts i, get pts j, LineType.Segment⟩

/-- The loop `for (i = 1; i < size(); ++i) if (f(getSegment(i - 1, i))) return;` of
`foreachSegment`. The callback `f` carries its own state of type `σ`; the first argument counts
the iterations still to run. The result tells whether the loop ran into `return`. -/
def segmentLoop {σ : Type} (pts : List Point2) (f : σ → Line2 → Bool × σ) :
    Nat → Nat → σ → Bool × σ
  | 0, _, s => (false, s)
  | n + 1, i, s =>
    let r := f s (getSegment pts (i - 1) i)
    if r.1 then (true, r.2) else segmentLoop pts f n (i + 1) r.2

/-- Method `AbstractPolygon<T>::foreachSegment`: the state of the callback when the call
returns. -/
def foreachSegment {σ : Type} (closed : Bool) (pts : List Point2) (f : σ → Line2 → Bool × σ)
    (s : σ) : σ :=
  let r := segmentLoop pts f (size pts - 1) 1 s
  if r.1 then r.2
  else if closed && decide (size pts > 2) then (f r.2 (getSegment pts (size pts - 1) 0)).2
  else r.2

/-- The callback `f` wrapped so that it also writes down every call: the segment passed and
the value returned. -/
def recording {σ : Type} (f : σ → Line2 → Bool × σ) :
    σ × List (Line2 × Bool) → Line2 → Bool × (σ × List (Line2 × Bool)) :=
  fun s seg => ((f s.1 seg).1, ((f s.1 seg).2, s.2 ++ [(seg, (f s.1 seg).1)]))

/-- The calls `foreachSegment` makes to the callback `f` started in state `s`, in order. -/
def calls {σ : Type} (closed : Bool) (pts : List Point2) (f : σ → Line2 → Bool × σ) (s : σ) :
    List (Line2 × Bool) :=
  (foreachSegment closed pts (recording f) (s, [])).2

/-- Specification: the full iteration order, the segments `(i-1, i)` for `i` in `[1, size())`
in increasing order, then the wrap-around segment `(size()-1, 0)` when `closed` is true and
`size() > 2`. -/
def specSegments (closed : Bool) (pts : List Point2) : List Line2 :=
  (List.range' 1 (size pts - 1)).map (fun i => getSegment pts (i - 1) i) ++
    (if closed = true ∧ size pts > 2 then [getSegment pts (size pts - 1) 0] else [])

/-- Specification: the callback is called on the segments of a list in order and no further
segment is visited once it has returned `true`. -/
def specCalls {σ : Type} (f : σ → Line2 → Bool × σ) : σ → List Line2 → List (Line2 × Bool)
  | _, [] => []
  | s, seg :: rest =>
    (seg, (f s seg).1) :: (if (f s seg).1 then [] else specCalls f (f s seg).2 rest)

end AbstractPolygon

/-! ## `Vector<T, N>` for an arbitrary arity -/

/-- The components `_data[0]` .. `_data[N-1]` of a `Vector<T, N>`. -/
abbrev Vector (N : Nat) := Fin N → ℚ

namespace Vector

/-- The loop of `Vector::operator<` over the indices still to visit:
`if (_data[i] >= p[i]) return false;`, and `return true;` after the loop. -/
def ltLoop {N : Nat} (self p : Vector N) : List (Fin N) → Bool
  | [] => true
  | i :: rest => if self i ≥ p i then false else ltLoop self p rest

/-- Operator `Vector::operator<`. -/
def lt {N : Nat} (self p : Vector N) : Bool := ltLoop self p (List.finRange N)

/-- The loop of `Vector::operator>` over the indices still to visit:
`if (_data[i] <= p[i]) return false;`, and `return true;` after the loop. -/
def gtLoop {N : Nat} (self p : Vector N) : List (Fin N) → Bool
  | [] => true
  | i :: rest => if self i ≤ p i then false else gtLoop self p rest

/-- Operator `Vector::operator>`. -/
def gt {N : Nat} (self p : Vector N) : Bool := gtLoop self p (List.finRange N)

/-- Operator `Vector::operator<=`: `return !(*this > p);`. -/
def le {N : Nat} (self p : Vector N) : Bool := !(gt self p)

/-- Operator `Vector::operator>=`: `return !(*this < p);`. -/
def ge {N : Nat} (self p : Vector N) : Bool := !(lt self p)

/-- Operator `Vector::operator+=`: the loop `_data[i] += p[i];` over all indices; the value
given is `*this` after the loop. -/
def addAssign {N : Nat} (self p : Vector N) : Vector N :=
  (List.finRange N).foldl (fun v i => Function.update v i (v i + p i)) self

/-- Operator `Vector::operator+`: `type vec(*this); vec += p; return vec;`. -/
def add {N : Nat} (self p : Vector N) : Vector N :=
  let vec := self
  let vec := addAssign vec p
  vec

/-- Operator `Vector::operator-(const type&)`: `type vec(*this);` followed by the loop whose
body is the expression statement `vec[i] - p[i];`, which leaves `vec` as it is. The function
has no `return` statement, so C++ leaves the value of the call indeterminate; the value taken
is the local `vec` after the loop, standing for a value the source does not fix. -/
def sub {N : Nat} (self p : Vector N) : Vector N :=
  let vec := self
  let vec := (List.finRange N).foldl (fun v i => let _difference := v i - p i; v) vec
  vec

end Vector

/-- The `Vec2<T>` with components `x`, `y` seen as a `Vector<T, 2>`. -/
def Vec2.toVector (v : Vec2) : Vector 2 := ![v.x, v.y]

/-! ## `type_traits.hpp` for an integral `T` -/

/-- Function `math::epsilon<T>()`, primary template (integral `T`): `return 0;`. -/
def epsilon : ℤ := 0

/-- Function `math::almostEquals` for an integral `T`, on mathematical integers (no overflow).
The quotient is the truncating division of C++; `none` stands for a division by zero. -/
def almostEquals (a b tolerance : ℤ) : Option Bool :=
  if a = b then some true
  else
    let difference := |a - b|
    if a = 0 ∨ b = 0 ∨ difference < tolerance then some (decide (difference < tolerance))
    else if |a| + |b| = 0 then none
    else some (decide (Int.tdiv difference (|a| + |b|) < tolerance))

/-! ## `Vector<T, N>`: `dot` and the N-dimensional `cross` -/

namespace Vector

/-- Method `Vector::dot`: `T tmp = 0;`, the loop `tmp += _data[i] * vec[i];` over all indices,
`return tmp;`. -/
def dot {N : Nat} (self vec : Vector N) : ℚ :=
  (List.finRange N).foldl (fun tmp i => tmp + self i * vec i) 0

/-- The index `(i+1) % N` used by the N-dimensional `cross`. -/
def next {N : Nat} (i : Fin N) : Fin N := ⟨(i.val + 1) % N, Nat.mod_lt _ i.pos⟩

/-- Method `Vector::cross`, N-dimensional overload: `type vec;`, the loop
`vec[i] = _data[i] * rhs[(i+1) % N] - _data[(i+1) % N] * rhs[i];` over all indices,
`return vec;`. The local `vec` starts as the zero vector; every component is assigned. -/
def cross {N : Nat} (self rhs : Vector N) : Vector N :=
  let vec : Vector N := fun _ => 0
  (List.finRange N).foldl
    (fun v i => Function.update v i (self i * rhs (next i) - self (next i) * rhs i)) vec

end Vector

/-! ## `AABB<int>` (`AABBi`)

The instantiation of `AABB<T>::intersect` with `T = int`, on mathematical integers (no
overflow); `/ 2` is the truncating division of C++. -/

/-- Modelled from the spec: `math::sign` (`math.hpp` is not among the sources) on an `int`:
-1, 0 or +1 for a negative, zero or positive argument. -/
def signi (x : ℤ) : ℤ :=
  if x < 0 then -1 else if x = 0 then 0 else 1

/-- The two components of a `Vec2<int>`. -/
structure Vec2i where
  x : ℤ
  y : ℤ
deriving DecidableEq

/-- Modelled from the spec: `Intersection<int>` (`Intersection.hpp` is not among the sources):
the empty state or a penetration vector. -/
inductive Intersectioni where
  | empty : Intersectioni
  | overlap (delta : Vec2i) : Intersectioni
deriving DecidableEq

/-- Type `AABBi`, that is `AABB<int>`: origin `pos` and extent `size`. -/
structure AABBi where
  pos : Vec2i
  size : Vec2i
deriving DecidableEq

/-- Method `AABB<T>::intersect` for `T = int`. -/
def AABBi.intersect (self other : AABBi) : Intersectioni :=
  let dx := (other.pos.x + Int.tdiv other.size.x 2) - (self.pos.x + Int.tdiv self.size.x 2)
  let px := (Int.tdiv other.size.x 2 + Int.tdiv self.size.x 2) - |dx|
  if px ≤ 0 then Intersectioni.empty
  else
    let dy := (other.pos.y + Int.tdiv other.size.y 2) - (self.pos.y + Int.tdiv self.size.y 2)
    let py := (Int.tdiv other.size.y 2 + Int.tdiv self.size.y 2) - |dy|
    if py ≤ 0 then Intersectioni.empty
    else Intersectioni.overlap ⟨px * signi dx, py * signi dy⟩

/-- The local `dx` of `AABB<T>::intersect` for `T = int`. -/
def AABBi.dx (self other : AABBi) : ℤ :=
  (other.pos.x + Int.tdiv other.size.x 2) - (self.pos.x + Int.tdiv self.size.x 2)

/-- The local `px` of `AABB<T>::intersect` for `T = int`: the penetration computed on x. -/
def AABBi.px (self other : AABBi) : ℤ :=
  (Int.tdiv other.size.x 2 + Int.tdiv self.size.x 2) - |AABBi.dx self other|

/-- The local `dy` of `AABB<T>::intersect` for `T = int`. -/
def AABBi.dy (self other : AABBi) : ℤ :=
  (other.pos.y + Int.tdiv other.size.y 2) - (self.pos.y + Int.tdiv self.size.y 2)

/-- The local `py` of `AABB<T>::intersect` for `T = int`: the penetration computed on y. -/
def AABBi.py (self other : AABBi) : ℤ :=
  (Int.tdiv other.size.y 2 + Int.tdiv self.size.y 2) - |AABBi.dy self other|

/-! ## The intersection test as the specification words it -/

/-- Specification, x axis: `centerDelta = centerB - centerA` with `center = pos + size/2`. -/
def specCenterDeltaX (A B : AABB) : ℚ :=
  (B.pos.x + B.size.x / 2) - (A.pos.x + A.size.x / 2)

/-- Specification, y axis: `centerDelta = centerB - centerA` with `center = pos + size/2`. -/
def specCenterDeltaY (A B : AABB) : ℚ :=
  (B.pos.y + B.size.y / 2) - (A.pos.y + A.size.y / 2)

/-- Specification, x axis: `penetration = (sizeA + sizeB)/2 - |centerDelta|`. -/
def specPenetrationX (A B : AABB) : ℚ :=
  (A.size.x + B.size.x) / 2 - |specCenterDeltaX A B|

/-- Specification, y axis: `penetration = (sizeA + sizeB)/2 - |centerDelta|`. -/
def specPenetrationY (A B : AABB) : ℚ :=
  (A.size.y + B.size.y) / 2 - |specCenterDeltaY A B|

/-- Specification of the test: empty when a penetration is not positive, else the overlap
vector `penetration * sign(centerDelta)` on each axis. -/
def specIntersect (A B : AABB) : Intersection :=
  if specPenetrationX A B ≤ 0 ∨ specPenetrationY A B ≤ 0 then Intersection.empty
  else Intersection.overlap
    ⟨specPenetrationX A B * (sign (specCenterDeltaX A B) : ℚ),
     specPenetrationY A B * (sign (specCenterDeltaY A B) : ℚ)⟩

/-! ## Theorems -/

theorem sign_range (x : ℚ) : sign x = -1 ∨ sign x = 0 ∨ sign x = 1 := by
  unfold sign
  split_ifs <;> simp

theorem sign_neg (x : ℚ) : sign (-x) = - sign x := by
  unfold sign
  rcases lt_trichotomy x 0 with h | h | h
  · have h1 : ¬ (-x < 0) := by linarith
    have h2 : ¬ (-x = 0) := by intro h3; linarith
    simp [h, h1, h2]
  · subst h; simp
  · have h1 : -x < 0 := by linarith
    have h2 : ¬ (x < 0) := by linarith
    have h3 : ¬ (x = 0) := by intro h3; linarith
    simp [h1, h2, h3]

theorem intersect_spec (A B : AABB) : A.intersect B = specIntersect A B := by
  have hx : B.size.x / 2 + A.size.x / 2 = (A.size.x + B.size.x) / 2 := by ring
  have hy : B.size.y / 2 + A.size.y / 2 = (A.size.y + B.size.y) / 2 := by ring
  unfold AABB.intersect specIntersect specPenetrationX specPenetrationY
    specCenterDeltaX specCenterDeltaY
  simp only [hx, hy]
  split_ifs with h1 h2 h3 h4 h5 <;> first | rfl | (exfalso; tauto)

theorem intersect_empty_iff (A B : AABB) :
    A.intersect B = Intersection.empty ↔
      specPenetrationX A B ≤ 0 ∨ specPenetrationY A B ≤ 0 := by
  rw [intersect_spec]
  unfold specIntersect
  split_ifs with h <;> simp [h]

theorem intersect_overlap_iff (A B : AABB) (d : Vec2) :
    A.intersect B = Intersection.overlap d ↔
      0 < specPenetrationX A B ∧ 0 < specPenetrationY A B ∧
      d = ⟨specPenetrationX A B * (sign (specCenterDeltaX A B) : ℚ),
           specPenetrationY A B * (sign (specCenterDeltaY A B) : ℚ)⟩ := by
  rw [intersect_spec]
  unfold specIntersect
  split_ifs with h
  · constructor
    · intro h'
      cases h'
    · rintro ⟨h1, h2, -⟩
      rcases h with h | h <;> linarith
  · push_neg at h
    constructor
    · intro h'
      injection h' with h'
      exact ⟨h.1, h.2, h'.symm⟩
    · rintro ⟨-, -, h3⟩
      rw [h3]

theorem specCenterDeltaX_swap (A B : AABB) : specCenterDeltaX B A = - specCenterDeltaX A B := by
  unfold specCenterDeltaX; ring

theorem specCenterDeltaY_swap (A B : AABB) : specCenterDeltaY B A = - specCenterDeltaY A B := by
  unfold specCenterDeltaY; ring

theorem specPenetrationX_swap (A B : AABB) : specPenetrationX B A = specPenetrationX A B := by
  unfold specPenetrationX
  rw [specCenterDeltaX_swap, abs_neg, add_comm]

theorem specPenetrationY_swap (A B : AABB) : specPenetrationY B A = specPenetrationY A B := by
  unfold specPenetrationY
  rw [specCenterDeltaY_swap, abs_neg, add_comm]

theorem sign_pos {x : ℚ} (h : 0 < x) : sign x = 1 := by
  unfold sign
  have h1 : ¬ (x < 0) := by linarith
  have h2 : ¬ (x = 0) := by intro h3; linarith
  simp [h1, h2]

theorem sign_of_neg {x : ℚ} (h : x < 0) : sign x = -1 := by
  unfold sign
  simp [h]

theorem sign_zero : sign 0 = 0 := by
  unfold sign
  simp

theorem contains_iff (B : AABB) (p : Vec2) :
    B.contains p = true ↔
      (B.pos.x ≤ p.x ∨ B.pos.y ≤ p.y) ∧ p.x < B.pos.x + B.size.x ∧ p.y < B.pos.y + B.size.y := by
  unfold AABB.contains Vec2.ge Vec2.lt Vec2.add Vec2.addAssign
  simp only [Bool.and_eq_true, Bool.not_eq_true', ge_iff_le]
  constructor
  · rintro ⟨h1, h2⟩
    split_ifs at h1 h2 with a b c d <;> simp_all
  · rintro ⟨h1, h2, h3⟩
    have h2' : ¬ (B.pos.x + B.size.x ≤ p.x) := not_le.mpr h2
    have h3' : ¬ (B.pos.y + B.size.y ≤ p.y) := not_le.mpr h3
    constructor
    · split_ifs with a b
      · rfl
      · rfl
      · exfalso
        rcases h1 with h1 | h1
        · exact a h1
        · exact b h1
    · simp [h2', h3']

theorem separation_arith (S c : ℚ) (hp : 0 < S - |c|) (hc : c ≠ 0) :
    0 < (S - |c|) * (sign c : ℚ) * c ∧
    S - |c + (S - |c|) * (sign c : ℚ)| ≤ 0 ∧
    ∀ t : ℚ, 0 ≤ t → t < 1 → 0 < S - |c + t * ((S - |c|) * (sign c : ℚ))| := by
  rcases lt_or_gt_of_ne hc with h | h
  · have habs : |c| = -c := abs_of_neg h
    rw [habs] at hp
    rw [sign_of_neg h, habs]
    push_cast
    have hS : 0 < S := by linarith
    refine ⟨by nlinarith, ?_, ?_⟩
    · have e : c + (S - -c) * -1 = -S := by ring
      rw [e, abs_neg, abs_of_pos hS]
      linarith
    · intro t ht0 ht1
      have hneg : c + t * ((S - -c) * -1) < 0 := by nlinarith
      rw [abs_of_neg hneg]
      nlinarith
  · have habs : |c| = c := abs_of_pos h
    rw [habs] at hp
    rw [sign_pos h, habs]
    push_cast
    have hS : 0 < S := by linarith
    refine ⟨by nlinarith, ?_, ?_⟩
    · have e : c + (S - c) * 1 = S := by ring
      rw [e, abs_of_pos hS]
      linarith
    · intro t ht0 ht1
      have hpos : 0 < c + t * ((S - c) * 1) := by nlinarith
      rw [abs_of_pos hpos]
      nlinarith

theorem specPenetrationX_translate (A B : AABB) (v : Vec2) :
    specPenetrationX A (B.translate v) =
      (A.size.x + B.size.x) / 2 - |specCenterDeltaX A B + v.x| := by
  unfold specPenetrationX specCenterDeltaX AABB.translate Vec2.add Vec2.addAssign
  congr 2
  ring

theorem specPenetrationY_translate (A B : AABB) (v : Vec2) :
    specPenetrationY A (B.translate v) =
      (A.size.y + B.size.y) / 2 - |specCenterDeltaY A B + v.y| := by
  unfold specPenetrationY specCenterDeltaY AABB.translate Vec2.add Vec2.addAssign
  congr 2
  ring

/-- C1: `A.intersect(B)` is empty iff a penetration is not positive, and it is always the
result the specification describes (`specIntersect`); `sign` takes values in -1, 0, +1. -/
theorem intersect_eq_spec (A B : AABB) :
    (A.intersect B = Intersection.empty ↔
        specPenetrationX A B ≤ 0 ∨ specPenetrationY A B ≤ 0) ∧
    A.intersect B = specIntersect A B ∧
    (∀ x : ℚ, sign x = -1 ∨ sign x = 0 ∨ sign x = 1) :=
  ⟨intersect_empty_iff A B, intersect_spec A B, sign_range⟩

/-- C2 (failing input): for the box with `pos = (0,0)`, `size = (10,10)` and the point
`(-1, 5)`, `contains` answers `true` although `p.x < pos.x`: `point >= pos` is computed as
`!(point < pos)`, which holds as soon as one component is not below. -/
theorem contains_point_left_of_box :
    AABB.contains ⟨⟨0, 0⟩, ⟨10, 10⟩⟩ ⟨-1, 5⟩ = true ∧
    ¬ ((0 : ℚ) ≤ -1 ∧ (-1 : ℚ) < 0 + 10 ∧ (0 : ℚ) ≤ 5 ∧ (5 : ℚ) < 0 + 10) := by
  constructor
  · rw [contains_iff]
    norm_num
  · norm_num

/-- C3: swapping the operands keeps emptiness, and when both results are overlaps the two
vectors are opposite (`delta == -delta'` with the vector operators of the code), so their
components have equal magnitudes. -/
theorem intersect_swap (A B : AABB) :
    (A.intersect B ≠ Intersection.empty ↔ B.intersect A ≠ Intersection.empty) ∧
    (∀ d : Vec2, A.intersect B = Intersection.overlap d ↔
        B.intersect A = Intersection.overlap (Vec2.neg d)) ∧
    (∀ d e : Vec2, A.intersect B = Intersection.overlap d ∧
        B.intersect A = Intersection.overlap e →
        Vec2.eq d (Vec2.neg e) = true ∧ |d.x| = |e.x| ∧ |d.y| = |e.y|) := by
  have hswap : ∀ d : Vec2, A.intersect B = Intersection.overlap d ↔
      B.intersect A = Intersection.overlap (Vec2.neg d) := by
    intro d
    rw [intersect_overlap_iff, intersect_overlap_iff, specPenetrationX_swap A B,
      specPenetrationY_swap A B, specCenterDeltaX_swap A B, specCenterDeltaY_swap A B,
      sign_neg, sign_neg]
    constructor
    · rintro ⟨h1, h2, h3⟩
      refine ⟨h1, h2, ?_⟩
      rw [h3]
      simp [Vec2.neg]
    · rintro ⟨h1, h2, h3⟩
      refine ⟨h1, h2, ?_⟩
      obtain ⟨dx, dy⟩ := d
      simp only [Vec2.neg, Vec2.mk.injEq, Int.cast_neg] at h3 ⊢
      constructor <;> linarith [h3.1, h3.2]
  refine ⟨?_, hswap, ?_⟩
  · rw [not_iff_not, intersect_empty_iff, intersect_empty_iff, specPenetrationX_swap A B,
      specPenetrationY_swap A B]
  · rintro d e ⟨hd, he⟩
    have h := (hswap d).mp hd
    rw [he] at h
    injection h with h
    subst h
    simp [Vec2.eq, Vec2.ne, Vec2.neg]

/-- C4 (as stated): the overlap vector of `A = (0,0,4,4)` and `B = (2,0,4,4)` is not
`(2, 4)`. -/
theorem intersect_example_not_2_4 :
    AABB.intersect ⟨⟨0, 0⟩, ⟨4, 4⟩⟩ ⟨⟨2, 0⟩, ⟨4, 4⟩⟩ ≠ Intersection.overlap ⟨2, 4⟩ := by
  norm_num [AABB.intersect, sign]

/-- C4 (amended): the overlap vector of `A = (0,0,4,4)` and `B = (2,0,4,4)` is `(2, 0)`:
penetration 2 with sign +1 on x, penetration 4 with sign 0 on y, where the centres align. -/
theorem intersect_example_2_0 :
    AABB.intersect ⟨⟨0, 0⟩, ⟨4, 4⟩⟩ ⟨⟨2, 0⟩, ⟨4, 4⟩⟩ = Intersection.overlap ⟨2, 0⟩ ∧
    specPenetrationX ⟨⟨0, 0⟩, ⟨4, 4⟩⟩ ⟨⟨2, 0⟩, ⟨4, 4⟩⟩ = 2 ∧
    specPenetrationY ⟨⟨0, 0⟩, ⟨4, 4⟩⟩ ⟨⟨2, 0⟩, ⟨4, 4⟩⟩ = 4 ∧
    sign (specCenterDeltaX ⟨⟨0, 0⟩, ⟨4, 4⟩⟩ ⟨⟨2, 0⟩, ⟨4, 4⟩⟩) = 1 ∧
    sign (specCenterDeltaY ⟨⟨0, 0⟩, ⟨4, 4⟩⟩ ⟨⟨2, 0⟩, ⟨4, 4⟩⟩) = 0 := by
  norm_num [AABB.intersect, sign, specPenetrationX, specPenetrationY, specCenterDeltaX,
    specCenterDeltaY]

/-- Over exact arithmetic, boxes with non-negative sizes that touch edge to edge on an axis
have penetration exactly 0 on that axis, and `intersect` gives the empty result. -/
theorem intersect_touching_exact (A B : AABB)
    (hA : 0 ≤ A.size.x ∧ 0 ≤ A.size.y) (hB : 0 ≤ B.size.x ∧ 0 ≤ B.size.y)
    (h : B.pos.x = A.pos.x + A.size.x ∨ B.pos.y = A.pos.y + A.size.y) :
    A.intersect B = Intersection.empty ∧
    (B.pos.x = A.pos.x + A.size.x → specPenetrationX A B = 0) ∧
    (B.pos.y = A.pos.y + A.size.y → specPenetrationY A B = 0) := by
  have hx : B.pos.x = A.pos.x + A.size.x → specPenetrationX A B = 0 := by
    intro h1
    unfold specPenetrationX specCenterDeltaX
    have h2 : B.pos.x + B.size.x / 2 - (A.pos.x + A.size.x / 2) = (A.size.x + B.size.x) / 2 := by
      rw [h1]; ring
    rw [h2, abs_of_nonneg (by linarith [hA.1, hB.1])]
    ring
  have hy : B.pos.y = A.pos.y + A.size.y → specPenetrationY A B = 0 := by
    intro h1
    unfold specPenetrationY specCenterDeltaY
    have h2 : B.pos.y + B.size.y / 2 - (A.pos.y + A.size.y / 2) = (A.size.y + B.size.y) / 2 := by
      rw [h1]; ring
    rw [h2, abs_of_nonneg (by linarith [hA.2, hB.2])]
    ring
  refine ⟨?_, hx, hy⟩
  rw [intersect_empty_iff]
  rcases h with h | h
  · exact Or.inl (le_of_eq (hx h))
  · exact Or.inr (le_of_eq (hy h))

/-- C6: when `A.intersect(B)` is the overlap `(ex, ey)` and `ex` is not 0, `ex` points from A
toward B, moving B by `(ex, 0)` makes the intersection empty, and moving it by `(t*ex, 0)` with
`0 <= t < 1` leaves it non-empty; the same holds on y with `(0, ey)`. -/
theorem intersect_minimal_separation (A B : AABB)
    (_hA : 0 ≤ A.size.x ∧ 0 ≤ A.size.y) (_hB : 0 ≤ B.size.x ∧ 0 ≤ B.size.y)
    (d : Vec2) (h : A.intersect B = Intersection.overlap d) :
    (d.x ≠ 0 →
      0 < d.x * specCenterDeltaX A B ∧
      A.intersect (B.translate ⟨d.x, 0⟩) = Intersection.empty ∧
      ∀ t : ℚ, 0 ≤ t → t < 1 →
        A.intersect (B.translate ⟨t * d.x, 0⟩) ≠ Intersection.empty) ∧
    (d.y ≠ 0 →
      0 < d.y * specCenterDeltaY A B ∧
      A.intersect (B.translate ⟨0, d.y⟩) = Intersection.empty ∧
      ∀ t : ℚ, 0 ≤ t → t < 1 →
        A.intersect (B.translate ⟨0, t * d.y⟩) ≠ Intersection.empty) := by
  obtain ⟨hpx, hpy, hd⟩ := (intersect_overlap_iff A B d).mp h
  have hdx : d.x = specPenetrationX A B * (sign (specCenterDeltaX A B) : ℚ) := by rw [hd]
  have hdy : d.y = specPenetrationY A B * (sign (specCenterDeltaY A B) : ℚ) := by rw [hd]
  have hpx' : 0 < (A.size.x + B.size.x) / 2 - |specCenterDeltaX A B| := hpx
  have hpy' : 0 < (A.size.y + B.size.y) / 2 - |specCenterDeltaY A B| := hpy
  have hdx' : d.x = ((A.size.x + B.size.x) / 2 - |specCenterDeltaX A B|) *
      (sign (specCenterDeltaX A B) : ℚ) := hdx
  have hdy' : d.y = ((A.size.y + B.size.y) / 2 - |specCenterDeltaY A B|) *
      (sign (specCenterDeltaY A B) : ℚ) := hdy
  constructor
  · intro hne
    have hc : specCenterDeltaX A B ≠ 0 := by
      intro h0
      apply hne
      rw [hdx, h0, sign_zero]
      simp
    obtain ⟨h1, h2, h3⟩ := separation_arith _ _ hpx' hc
    rw [← hdx'] at h1 h2
    refine ⟨h1, ?_, ?_⟩
    · rw [intersect_empty_iff, specPenetrationX_translate]
      exact Or.inl h2
    · intro t ht0 ht1
      rw [Ne, intersect_empty_iff, specPenetrationX_translate, specPenetrationY_translate]
      have h4 := h3 t ht0 ht1
      rw [← hdx'] at h4
      simp only [add_zero]
      push_neg
      exact ⟨h4, hpy'⟩
  · intro hne
    have hc : specCenterDeltaY A B ≠ 0 := by
      intro h0
      apply hne
      rw [hdy, h0, sign_zero]
      simp
    obtain ⟨h1, h2, h3⟩ := separation_arith _ _ hpy' hc
    rw [← hdy'] at h1 h2
    refine ⟨h1, ?_, ?_⟩
    · rw [intersect_empty_iff, specPenetrationY_translate]
      exact Or.inr h2
    · intro t ht0 ht1
      rw [Ne, intersect_empty_iff, specPenetrationX_translate, specPenetrationY_translate]
      have h4 := h3 t ht0 ht1
      rw [← hdy'] at h4
      simp only [add_zero]
      push_neg
      exact ⟨hpx', h4⟩

/-- Witness of C6 at `A = (0,0,4,4)`, `B = (2,1,4,4)`, whose overlap vector is `(2, 3)`. -/
theorem intersect_minimal_separation_witness :
    AABB.intersect ⟨⟨0, 0⟩, ⟨4, 4⟩⟩ ⟨⟨2, 1⟩, ⟨4, 4⟩⟩ = Intersection.overlap ⟨2, 3⟩ ∧
    AABB.intersect ⟨⟨0, 0⟩, ⟨4, 4⟩⟩ (AABB.translate ⟨⟨2, 1⟩, ⟨4, 4⟩⟩ ⟨2, 0⟩) =
      Intersection.empty ∧
    AABB.intersect ⟨⟨0, 0⟩, ⟨4, 4⟩⟩ (AABB.translate ⟨⟨2, 1⟩, ⟨4, 4⟩⟩ ⟨0, 3⟩) =
      Intersection.empty :=
  have h0 : AABB.intersect ⟨⟨0, 0⟩, ⟨4, 4⟩⟩ ⟨⟨2, 1⟩, ⟨4, 4⟩⟩ = Intersection.overlap ⟨2, 3⟩ := by
    norm_num [AABB.intersect, sign]
  have h := intersect_minimal_separation ⟨⟨0, 0⟩, ⟨4, 4⟩⟩ ⟨⟨2, 1⟩, ⟨4, 4⟩⟩
    (by norm_num) (by norm_num) ⟨2, 3⟩ h0
  ⟨h0, (h.1 (by norm_num)).2.1, (h.2 (by norm_num)).2.1⟩

/-! ### The loops of `_calculateBBox` and `_calculateConvex` -/

theorem get_eq_getElem (pts : List Point2) (i : Nat) (h : i < pts.length) :
    AbstractPolygon.get pts i = pts[i] := by
  simp [AbstractPolygon.get, List.getD, List.getElem?_eq_getElem h]

theorem bboxLoop_eq_foldl (pts : List Point2) (n : Nat) :
    ∀ (i : Nat) (acc : Vec2 × Vec2), i + n = pts.length →
      AbstractPolygon.bboxLoop pts n i acc =
        (pts.drop i).foldl AbstractPolygon.bboxStep acc := by
  induction n with
  | zero =>
    intro i acc h
    have hnil : pts.drop i = [] := List.drop_eq_nil_of_le (by omega)
    rw [hnil]
    rfl
  | succ n ih =>
    intro i acc h
    obtain ⟨mn, mx⟩ := acc
    have hlt : i < pts.length := by omega
    rw [List.drop_eq_getElem_cons hlt]
    simp only [AbstractPolygon.bboxLoop, List.foldl_cons]
    rw [ih (i + 1) _ (by omega), get_eq_getElem pts i hlt]
    rfl

theorem foldl_bboxStep_bounds (l : List Point2) :
    ∀ acc : Vec2 × Vec2,
      ((l.foldl AbstractPolygon.bboxStep acc).1.x ≤ acc.1.x ∧
       (l.foldl AbstractPolygon.bboxStep acc).1.y ≤ acc.1.y ∧
       acc.2.x ≤ (l.foldl AbstractPolygon.bboxStep acc).2.x ∧
       acc.2.y ≤ (l.foldl AbstractPolygon.bboxStep acc).2.y) ∧
      ∀ p ∈ l,
        (l.foldl AbstractPolygon.bboxStep acc).1.x ≤ p.x ∧
        (l.foldl AbstractPolygon.bboxStep acc).1.y ≤ p.y ∧
        p.x ≤ (l.foldl AbstractPolygon.bboxStep acc).2.x ∧
        p.y ≤ (l.foldl AbstractPolygon.bboxStep acc).2.y := by
  induction l with
  | nil =>
    intro acc
    simp
  | cons q l ih =>
    intro acc
    obtain ⟨⟨h1, h2, h3, h4⟩, hall⟩ := ih (AbstractPolygon.bboxStep acc q)
    simp only [List.foldl_cons]
    have e1 : (AbstractPolygon.bboxStep acc q).1.x = min acc.1.x q.x := rfl
    have e2 : (AbstractPolygon.bboxStep acc q).1.y = min acc.1.y q.y := rfl
    have e3 : (AbstractPolygon.bboxStep acc q).2.x = max acc.2.x q.x := rfl
    have e4 : (AbstractPolygon.bboxStep acc q).2.y = max acc.2.y q.y := rfl
    rw [e1] at h1
    rw [e2] at h2
    rw [e3] at h3
    rw [e4] at h4
    refine ⟨⟨le_trans h1 (min_le_left _ _), le_trans h2 (min_le_left _ _),
      le_trans (le_max_left _ _) h3, le_trans (le_max_left _ _) h4⟩, ?_⟩
    intro p hp
    rcases List.mem_cons.mp hp with hq | hl
    · subst hq
      exact ⟨le_trans h1 (min_le_right _ _), le_trans h2 (min_le_right _ _),
        le_trans (le_max_right _ _) h3, le_trans (le_max_right _ _) h4⟩
    · exact hall p hl

theorem foldl_bboxStep_attained (l : List Point2) :
    ∀ acc : Vec2 × Vec2,
      ((l.foldl AbstractPolygon.bboxStep acc).1.x = acc.1.x ∨
        ∃ p ∈ l, (l.foldl AbstractPolygon.bboxStep acc).1.x = p.x) ∧
      ((l.foldl AbstractPolygon.bboxStep acc).1.y = acc.1.y ∨
        ∃ p ∈ l, (l.foldl AbstractPolygon.bboxStep acc).1.y = p.y) ∧
      ((l.foldl AbstractPolygon.bboxStep acc).2.x = acc.2.x ∨
        ∃ p ∈ l, (l.foldl AbstractPolygon.bboxStep acc).2.x = p.x) ∧
      ((l.foldl AbstractPolygon.bboxStep acc).2.y = acc.2.y ∨
        ∃ p ∈ l, (l.foldl AbstractPolygon.bboxStep acc).2.y = p.y) := by
  induction l with
  | nil =>
    intro acc
    simp
  | cons q l ih =>
    intro acc
    obtain ⟨h1, h2, h3, h4⟩ := ih (AbstractPolygon.bboxStep acc q)
    simp only [List.foldl_cons]
    have e1 : (AbstractPolygon.bboxStep acc q).1.x = min acc.1.x q.x := rfl
    have e2 : (AbstractPolygon.bboxStep acc q).1.y = min acc.1.y q.y := rfl
    have e3 : (AbstractPolygon.bboxStep acc q).2.x = max acc.2.x q.x := rfl
    have e4 : (AbstractPolygon.bboxStep acc q).2.y = max acc.2.y q.y := rfl
    rw [e1] at h1
    rw [e2] at h2
    rw [e3] at h3
    rw [e4] at h4
    refine ⟨?_, ?_, ?_, ?_⟩
    · rcases h1 with h | ⟨p, hp, h⟩
      · rcases min_choice acc.1.x q.x with hm | hm
        · exact Or.inl (h.trans hm)
        · exact Or.inr ⟨q, List.mem_cons_self _ _, h.trans hm⟩
      · exact Or.inr ⟨p, List.mem_cons_of_mem _ hp, h⟩
    · rcases h2 with h | ⟨p, hp, h⟩
      · rcases min_choice acc.1.y q.y with hm | hm
        · exact Or.inl (h.trans hm)
        · exact Or.inr ⟨q, List.mem_cons_self _ _, h.trans hm⟩
      · exact Or.inr ⟨p, List.mem_cons_of_mem _ hp, h⟩
    · rcases h3 with h | ⟨p, hp, h⟩
      · rcases max_choice acc.2.x q.x with hm | hm
        · exact Or.inl (h.trans hm)
        · exact Or.inr ⟨q, List.mem_cons_self _ _, h.trans hm⟩
      · exact Or.inr ⟨p, List.mem_cons_of_mem _ hp, h⟩
    · rcases h4 with h | ⟨p, hp, h⟩
      · rcases max_choice acc.2.y q.y with hm | hm
        · exact Or.inl (h.trans hm)
        · exact Or.inr ⟨q, List.mem_cons_self _ _, h.trans hm⟩
      · exact Or.inr ⟨p, List.mem_cons_of_mem _ hp, h⟩

/-- With fewer than 2 vertices `_calculateBBox()` is the zero box. -/
theorem calculateBBox_of_lt_two (pts : List Point2) (h : pts.length < 2) :
    AbstractPolygon._calculateBBox pts = ⟨⟨0, 0⟩, ⟨0, 0⟩⟩ := by
  simp [AbstractPolygon._calculateBBox, AbstractPolygon.size, h, AABB.null, Vec2.zero]

/-- With at least 2 vertices `_calculateBBox()` is the box whose `pos` is the accumulated
minimum and whose `size` is what `Vector::operator-` yields on the accumulated maximum and
minimum. -/
theorem calculateBBox_of_two_le (p q : Point2) (rest : List Point2) :
    AbstractPolygon._calculateBBox (p :: q :: rest) =
      ⟨((q :: rest).foldl AbstractPolygon.bboxStep (p.asVector, p.asVector)).1,
       Vec2.sub ((q :: rest).foldl AbstractPolygon.bboxStep (p.asVector, p.asVector)).2
         ((q :: rest).foldl AbstractPolygon.bboxStep (p.asVector, p.asVector)).1⟩ := by
  have hsz : ¬ (AbstractPolygon.size (p :: q :: rest) < 2) := by
    simp [AbstractPolygon.size]
  have hloop := bboxLoop_eq_foldl (p :: q :: rest) (AbstractPolygon.size (p :: q :: rest) - 1) 1
    ((AbstractPolygon.get (p :: q :: rest) 0).asVector,
     (AbstractPolygon.get (p :: q :: rest) 0).asVector)
    (by simp [AbstractPolygon.size]; omega)
  have hget : AbstractPolygon.get (p :: q :: rest) 0 = p := rfl
  have hdrop : (p :: q :: rest).drop 1 = q :: rest := rfl
  rw [hget, hdrop] at hloop
  unfold AbstractPolygon._calculateBBox
  rw [if_neg hsz, hget]
  simp only [hloop]

/-- What `_calculateBBox()` computes with at least 2 vertices: `pos` is the componentwise
minimum of the vertices, and `size` is what `operator-` yields on their componentwise maximum
`mx` and that minimum. -/
theorem calculateBBox_is_min_and_max (p q : Point2) (rest : List Point2) :
    ∃ mx : Vec2,
      (AbstractPolygon._calculateBBox (p :: q :: rest)).size =
        Vec2.sub mx (AbstractPolygon._calculateBBox (p :: q :: rest)).pos ∧
      (∀ v ∈ p :: q :: rest,
        (AbstractPolygon._calculateBBox (p :: q :: rest)).pos.x ≤ v.x ∧
        (AbstractPolygon._calculateBBox (p :: q :: rest)).pos.y ≤ v.y ∧
        v.x ≤ mx.x ∧ v.y ≤ mx.y) ∧
      (∃ v ∈ p :: q :: rest, (AbstractPolygon._calculateBBox (p :: q :: rest)).pos.x = v.x) ∧
      (∃ v ∈ p :: q :: rest, (AbstractPolygon._calculateBBox (p :: q :: rest)).pos.y = v.y) ∧
      (∃ v ∈ p :: q :: rest, mx.x = v.x) ∧
      (∃ v ∈ p :: q :: rest, mx.y = v.y) := by
  rw [calculateBBox_of_two_le]
  obtain ⟨⟨b1, b2, b3, b4⟩, ball⟩ :=
    foldl_bboxStep_bounds (q :: rest) (p.asVector, p.asVector)
  obtain ⟨a1, a2, a3, a4⟩ := foldl_bboxStep_attained (q :: rest) (p.asVector, p.asVector)
  refine ⟨((q :: rest).foldl AbstractPolygon.bboxStep (p.asVector, p.asVector)).2,
    rfl, ?_, ?_, ?_, ?_, ?_⟩
  · intro v hv
    rcases List.mem_cons.mp hv with hp | hl
    · subst hp
      exact ⟨b1, b2, b3, b4⟩
    · exact ball v hl
  · rcases a1 with h | ⟨v, hv, h⟩
    · exact ⟨p, List.mem_cons_self _ _, h⟩
    · exact ⟨v, List.mem_cons_of_mem _ hv, h⟩
  · rcases a2 with h | ⟨v, hv, h⟩
    · exact ⟨p, List.mem_cons_self _ _, h⟩
    · exact ⟨v, List.mem_cons_of_mem _ hv, h⟩
  · rcases a3 with h | ⟨v, hv, h⟩
    · exact ⟨p, List.mem_cons_self _ _, h⟩
    · exact ⟨v, List.mem_cons_of_mem _ hv, h⟩
  · rcases a4 with h | ⟨v, hv, h⟩
    · exact ⟨p, List.mem_cons_self _ _, h⟩
    · exact ⟨v, List.mem_cons_of_mem _ hv, h⟩

theorem convexLoop_true_iff (pts : List Point2) (n : Nat) :
    ∀ (i : Nat) (sgn : ℤ), 0 < i →
      (AbstractPolygon.convexLoop pts n i sgn = true ↔
        ∀ j, i ≤ j → j < i + n →
          AbstractPolygon.turnSign pts j ≠ 0 → AbstractPolygon.turnSign pts j = sgn) := by
  induction n with
  | zero =>
    intro i sgn _
    simp only [AbstractPolygon.convexLoop, add_zero, true_iff]
    intro j h1 h2
    omega
  | succ n ih =>
    intro i sgn hi
    have hi0 : i ≠ 0 := Nat.pos_iff_ne_zero.mp hi
    simp only [AbstractPolygon.convexLoop, hi0, if_false]
    split_ifs with hc
    · simp only [Bool.false_eq_true, false_iff]
      intro hall
      exact hc.2 (hall i le_rfl (by omega) hc.1).symm
    · rw [ih (i + 1) sgn (Nat.succ_pos i)]
      constructor
      · intro hall j h1 h2 h3
        rcases Nat.eq_or_lt_of_le h1 with h | h
        · subst h
          by_contra hne
          exact hc ⟨h3, fun e => hne e.symm⟩
        · exact hall j h (by omega) h3
      · intro hall j h1 h2 h3
        exact hall j (by omega) (by omega) h3

/-- What `_calculateConvex()` computes with more than 3 vertices: `true` iff every non-zero
sign at a vertex `j >= 1` equals the sign at vertex 0, zero or not. -/
theorem calculateConvex_true_iff (pts : List Point2) (h : 3 < pts.length) :
    AbstractPolygon._calculateConvex pts = true ↔
      ∀ j, 0 < j → j < pts.length →
        AbstractPolygon.turnSign pts j ≠ 0 →
          AbstractPolygon.turnSign pts j = AbstractPolygon.turnSign pts 0 := by
  unfold AbstractPolygon._calculateConvex AbstractPolygon.size
  rw [if_neg (by omega)]
  obtain ⟨n, hn⟩ : ∃ n, pts.length = n + 1 := ⟨pts.length - 1, by omega⟩
  rw [hn]
  simp only [AbstractPolygon.convexLoop, if_true]
  rw [convexLoop_true_iff pts n 1 _ Nat.one_pos]
  constructor
  · intro hall j h1 h2 h3
    exact hall j h1 (by omega) h3
  · intro hall j h1 h2 h3
    exact hall j h1 (by omega) h3

/-! ### The cache of `BasePolygon` -/

theorem cacheInv_create (closed filled : Bool) (ndir : NormalDirection) (init : List Point2) :
    BasePolygon.CacheInv (BasePolygon.create closed filled ndir init) := by
  simp [BasePolygon.CacheInv, BasePolygon.create]

theorem cacheInv_edit (s : BasePolygon) (i : Nat) (p : Point2) :
    BasePolygon.CacheInv (s.edit i p) := by
  simp [BasePolygon.CacheInv, BasePolygon.edit]

theorem cacheInv_remove (s : BasePolygon) (i : Nat) : BasePolygon.CacheInv (s.remove i) := by
  simp [BasePolygon.CacheInv, BasePolygon.remove]

theorem cacheInv_clear (s : BasePolygon) : BasePolygon.CacheInv s.clear := by
  simp [BasePolygon.CacheInv, BasePolygon.clear]

theorem cacheInv_getBBox (s : BasePolygon) (h : BasePolygon.CacheInv s) :
    BasePolygon.CacheInv s.getBBox.2 := by
  unfold BasePolygon.getBBox
  split_ifs with hd
  · exact ⟨fun _ => rfl, h.2⟩
  · exact h

theorem cacheInv_isConvex (s : BasePolygon) (h : BasePolygon.CacheInv s) :
    BasePolygon.CacheInv s.isConvex.2 := by
  unfold BasePolygon.isConvex
  split_ifs with hd
  · exact ⟨h.1, fun _ => rfl⟩
  · exact h

/-- The convexity half of the cache invariant holds in every state reached from a freshly
constructed polygon. -/
theorem convex_cache_reachable (closed filled : Bool) (ndir : NormalDirection)
    (init : List Point2) (ops : List BasePolygon.Op) :
    (BasePolygon.run (BasePolygon.create closed filled ndir init) ops)._convexdirty = false →
    (BasePolygon.run (BasePolygon.create closed filled ndir init) ops)._convex =
      AbstractPolygon._calculateConvex
        (BasePolygon.run (BasePolygon.create closed filled ndir init) ops).pts := by
  have hstep : ∀ (s : BasePolygon) (op : BasePolygon.Op),
      (s._convexdirty = false → s._convex = AbstractPolygon._calculateConvex s.pts) →
      ((BasePolygon.step s op)._convexdirty = false →
        (BasePolygon.step s op)._convex =
          AbstractPolygon._calculateConvex (BasePolygon.step s op).pts) := by
    intro s op hs
    cases op with
    | add point => simp [BasePolygon.step, BasePolygon.add]
    | edit i p => simp [BasePolygon.step, BasePolygon.edit]
    | insert i p => simp [BasePolygon.step, BasePolygon.insert]
    | remove i => simp [BasePolygon.step, BasePolygon.remove]
    | clear => simp [BasePolygon.step, BasePolygon.clear]
    | getBBox =>
      simp only [BasePolygon.step, BasePolygon.getBBox]
      split_ifs <;> exact hs
    | isConvex =>
      simp only [BasePolygon.step, BasePolygon.isConvex]
      split_ifs with hd
      · intro _; rfl
      · exact hs
  have hrun : ∀ (ops : List BasePolygon.Op) (s : BasePolygon),
      (s._convexdirty = false → s._convex = AbstractPolygon._calculateConvex s.pts) →
      ((BasePolygon.run s ops)._convexdirty = false →
        (BasePolygon.run s ops)._convex =
          AbstractPolygon._calculateConvex (BasePolygon.run s ops).pts) := by
    intro ops
    induction ops with
    | nil => intro s hs; exact hs
    | cons op ops ih =>
      intro s hs
      exact ih (BasePolygon.step s op) (hstep s op hs)
  exact hrun ops _ (by simp [BasePolygon.create])

/-- After an `add` that leaves the bbox flag dirty the cache invariant holds. -/
theorem cacheInv_add_of_dirty (s : BasePolygon) (p : Point2)
    (hd : (s.add p)._bboxdirty = true) : BasePolygon.CacheInv (s.add p) := by
  constructor
  · intro hc
    rw [hd] at hc
    cases hc
  · intro hc
    simp [BasePolygon.add] at hc

/-- After an `insert` that leaves the bbox flag dirty the cache invariant holds. -/
theorem cacheInv_insert_of_dirty (s : BasePolygon) (i : Nat) (p : Point2)
    (hd : (s.insert i p)._bboxdirty = true) : BasePolygon.CacheInv (s.insert i p) := by
  constructor
  · intro hc
    rw [hd] at hc
    cases hc
  · intro hc
    simp [BasePolygon.insert] at hc

/-- C8 (failing input): for the convex pentagon `(0,0), (1,0), (2,0), (2,2), (0,2)` the signs
at the five vertices are `0, 1, 1, 1, 1`, so all non-zero signs are equal, and
`_calculateConvex()` returns `false`: the zero sign of vertex 0 is kept as the reference. -/
theorem calculateConvex_collinear_first_vertex :
    (List.range 5).map
      (AbstractPolygon.turnSign [⟨0, 0⟩, ⟨1, 0⟩, ⟨2, 0⟩, ⟨2, 2⟩, ⟨0, 2⟩]) = [0, 1, 1, 1, 1] ∧
    (∀ i j : Nat, i < 5 ∧ j < 5 ∧
      AbstractPolygon.turnSign [⟨0, 0⟩, ⟨1, 0⟩, ⟨2, 0⟩, ⟨2, 2⟩, ⟨0, 2⟩] i ≠ 0 ∧
      AbstractPolygon.turnSign [⟨0, 0⟩, ⟨1, 0⟩, ⟨2, 0⟩, ⟨2, 2⟩, ⟨0, 2⟩] j ≠ 0 →
      AbstractPolygon.turnSign [⟨0, 0⟩, ⟨1, 0⟩, ⟨2, 0⟩, ⟨2, 2⟩, ⟨0, 2⟩] i =
        AbstractPolygon.turnSign [⟨0, 0⟩, ⟨1, 0⟩, ⟨2, 0⟩, ⟨2, 2⟩, ⟨0, 2⟩] j) ∧
    AbstractPolygon._calculateConvex [⟨0, 0⟩, ⟨1, 0⟩, ⟨2, 0⟩, ⟨2, 2⟩, ⟨0, 2⟩] = false := by
  refine ⟨?_, ?_, ?_⟩
  · norm_num [List.range, List.range.loop, AbstractPolygon.size, AbstractPolygon.turnSign,
      AbstractPolygon.get, Point2.sub, Vec2.cross, wrap, sign]
  · rintro i j ⟨hi, hj, h1, h2⟩
    interval_cases i <;> interval_cases j <;>
      norm_num [AbstractPolygon.size, AbstractPolygon.turnSign, AbstractPolygon.get, Point2.sub,
        Vec2.cross, wrap, sign] at h1 h2 ⊢
  · norm_num [AbstractPolygon._calculateConvex, AbstractPolygon.size,
      AbstractPolygon.convexLoop, AbstractPolygon.turnSign, AbstractPolygon.get, Point2.sub,
      Vec2.cross, wrap, sign]

/-- C9 (as stated): for the closed polygon `(0,0), (4,0), (4,4), (1,1)`, `isConvex()` does not
return `false`. -/
theorem isConvex_quad_not_false :
    ¬ ((BasePolygon.run (BasePolygon.create true true NormalDirection.NormalBoth [])
      [BasePolygon.Op.add ⟨0, 0⟩, BasePolygon.Op.add ⟨4, 0⟩, BasePolygon.Op.add ⟨4, 4⟩,
       BasePolygon.Op.add ⟨1, 1⟩]).isConvex.1 = false) := by
  norm_num [BasePolygon.run, BasePolygon.step, BasePolygon.create, BasePolygon.add,
    BasePolygon.isConvex, BasePolygon._add, intersectPoint, AABB.null, Vec2.zero,
    AbstractPolygon._calculateConvex, AbstractPolygon.size,
    AbstractPolygon.convexLoop, AbstractPolygon.turnSign, AbstractPolygon.get, Point2.sub,
    Vec2.cross, wrap, sign]

/-- C9 (amended): for the closed polygon `(0,0), (4,0), (4,4), (1,1)`, `isConvex()` returns
`true`: the signs at the four vertices are `1, 1, 0, 1`, the vertex `(1,1)` lying on the
segment from `(4,4)` to `(0,0)`. -/
theorem isConvex_quad_true :
    (BasePolygon.run (BasePolygon.create true true NormalDirection.NormalBoth [])
      [BasePolygon.Op.add ⟨0, 0⟩, BasePolygon.Op.add ⟨4, 0⟩, BasePolygon.Op.add ⟨4, 4⟩,
       BasePolygon.Op.add ⟨1, 1⟩]).isConvex.1 = true ∧
    (List.range 4).map
      (AbstractPolygon.turnSign [⟨0, 0⟩, ⟨4, 0⟩, ⟨4, 4⟩, ⟨1, 1⟩]) = [1, 1, 0, 1] := by
  norm_num [List.range, List.range.loop, BasePolygon.run, BasePolygon.step, BasePolygon.create,
    BasePolygon.add,
    BasePolygon.isConvex, BasePolygon._add, intersectPoint, AABB.null, Vec2.zero,
    AbstractPolygon._calculateConvex, AbstractPolygon.size,
    AbstractPolygon.convexLoop, AbstractPolygon.turnSign, AbstractPolygon.get, Point2.sub,
    Vec2.cross, wrap, sign]

/-- C10 (failing input): for the vertices `(2,2), (3,4)` `_calculateBBox()` gives
`pos (2,2), size (3,4)`, the extent being the maximum itself and not `max - min = (1,2)`;
the bound `pos + size = (5,6)` is attained by no vertex. -/
theorem calculateBBox_extent_not_difference :
    AbstractPolygon._calculateBBox [⟨2, 2⟩, ⟨3, 4⟩] = ⟨⟨2, 2⟩, ⟨3, 4⟩⟩ ∧
    AbstractPolygon._calculateBBox [⟨2, 2⟩, ⟨3, 4⟩] ≠ ⟨⟨2, 2⟩, ⟨3 - 2, 4 - 2⟩⟩ := by
  norm_num [AbstractPolygon._calculateBBox, AbstractPolygon.size, AbstractPolygon.bboxLoop,
    AbstractPolygon.get, Point2.asVector, Vec2.sub]

/-! ### `foreachSegment` -/

theorem segmentLoop_recording {σ : Type} (pts : List Point2) (f : σ → Line2 → Bool × σ) :
    ∀ (k i : Nat) (s : σ) (acc : List (Line2 × Bool)),
      ∃ (b : Bool) (s' : σ),
        AbstractPolygon.segmentLoop pts (AbstractPolygon.recording f) k i (s, acc) =
          (b, (s', acc ++ AbstractPolygon.specCalls f s
            ((List.range' i k).map (fun j => AbstractPolygon.getSegment pts (j - 1) j)))) ∧
        AbstractPolygon.segmentLoop pts f k i s = (b, s') ∧
        ∀ more : List Line2,
          AbstractPolygon.specCalls f s
            ((List.range' i k).map (fun j => AbstractPolygon.getSegment pts (j - 1) j) ++ more) =
          AbstractPolygon.specCalls f s
            ((List.range' i k).map (fun j => AbstractPolygon.getSegment pts (j - 1) j)) ++
            (if b = true then [] else AbstractPolygon.specCalls f s' more) := by
  intro k
  induction k with
  | zero =>
    intro i s acc
    exact ⟨false, s, by simp [AbstractPolygon.segmentLoop, AbstractPolygon.specCalls],
      by simp [AbstractPolygon.segmentLoop], by simp [AbstractPolygon.specCalls]⟩
  | succ k ih =>
    intro i s acc
    by_cases hb : (f s (AbstractPolygon.getSegment pts (i - 1) i)).1 = true
    · refine ⟨true, (f s (AbstractPolygon.getSegment pts (i - 1) i)).2, ?_, ?_, ?_⟩
      · simp [AbstractPolygon.segmentLoop, AbstractPolygon.recording,
          AbstractPolygon.specCalls, List.range'_succ, hb]
      · simp [AbstractPolygon.segmentLoop, hb]
      · intro more
        simp [AbstractPolygon.specCalls, List.range'_succ, hb]
    · obtain ⟨b, s', h1, h2, h3⟩ := ih (i + 1) (f s (AbstractPolygon.getSegment pts (i - 1) i)).2
        (acc ++ [(AbstractPolygon.getSegment pts (i - 1) i, false)])
      have hb' : (f s (AbstractPolygon.getSegment pts (i - 1) i)).1 = false := by
        simpa using hb
      refine ⟨b, s', ?_, ?_, ?_⟩
      · simp only [AbstractPolygon.segmentLoop, AbstractPolygon.recording, hb',
          Bool.false_eq_true, if_false, List.range'_succ, List.map_cons,
          AbstractPolygon.specCalls]
        have h1' := h1
        simp only [AbstractPolygon.recording] at h1'
        rw [h1']
        simp
      · simp only [AbstractPolygon.segmentLoop, hb', Bool.false_eq_true, if_false]
        exact h2
      · intro more
        simp only [List.range'_succ, List.map_cons, List.cons_append,
          AbstractPolygon.specCalls, hb', Bool.false_eq_true, if_false]
        exact congrArg (List.cons _) (h3 more)

/-- The calls made by `foreachSegment` are those of the specification on the full iteration
order, and writing the calls down does not change what the callback does. -/
theorem calls_eq_specCalls {σ : Type} (closed : Bool) (pts : List Point2)
    (f : σ → Line2 → Bool × σ) (s : σ) :
    AbstractPolygon.calls closed pts f s =
      AbstractPolygon.specCalls f s (AbstractPolygon.specSegments closed pts) ∧
    (AbstractPolygon.foreachSegment closed pts (AbstractPolygon.recording f) (s, [])).1 =
      AbstractPolygon.foreachSegment closed pts f s := by
  obtain ⟨b, s', h1, h2, h3⟩ :=
    segmentLoop_recording pts f (AbstractPolygon.size pts - 1) 1 s []
  unfold AbstractPolygon.calls AbstractPolygon.foreachSegment AbstractPolygon.specSegments
  rw [h1, h2, h3]
  cases b with
  | true => simp
  | false =>
    by_cases hc : closed = true ∧ AbstractPolygon.size pts > 2
    · have hc' : (closed && decide (AbstractPolygon.size pts > 2)) = true := by
        simp [hc.1, hc.2]
      simp [hc, hc', AbstractPolygon.recording, AbstractPolygon.specCalls]
    · have hc' : (closed && decide (AbstractPolygon.size pts > 2)) = false := by
        by_contra hne
        apply hc
        simpa using hne
      simp [hc, hc', AbstractPolygon.specCalls]

theorem specCalls_never_true {σ : Type} (f : σ → Line2 → Bool × σ)
    (hf : ∀ t seg, (f t seg).1 = false) :
    ∀ (segs : List Line2) (s : σ),
      AbstractPolygon.specCalls f s segs = segs.map (fun seg => (seg, false)) := by
  intro segs
  induction segs with
  | nil => intro s; rfl
  | cons seg rest ih =>
    intro s
    simp [AbstractPolygon.specCalls, hf, ih]

theorem specCalls_prefix {σ : Type} (f : σ → Line2 → Bool × σ) :
    ∀ (segs : List Line2) (s : σ),
      ∃ k, k ≤ segs.length ∧
        (AbstractPolygon.specCalls f s segs).map Prod.fst = segs.take k ∧
        (∀ e ∈ (AbstractPolygon.specCalls f s segs).dropLast, e.2 = false) ∧
        (k < segs.length →
          ∃ seg, (AbstractPolygon.specCalls f s segs).getLast? = some (seg, true)) := by
  intro segs
  induction segs with
  | nil =>
    intro s
    exact ⟨0, le_rfl, by simp [AbstractPolygon.specCalls],
      by simp [AbstractPolygon.specCalls], by simp⟩
  | cons seg rest ih =>
    intro s
    by_cases hb : (f s seg).1 = true
    · refine ⟨1, by simp, ?_, ?_, ?_⟩
      · simp [AbstractPolygon.specCalls, hb]
      · simp [AbstractPolygon.specCalls, hb]
      · intro _
        exact ⟨seg, by simp [AbstractPolygon.specCalls, hb]⟩
    · have hb' : (f s seg).1 = false := by simpa using hb
      obtain ⟨k, hk, hmap, hfalse, hlast⟩ := ih (f s seg).2
      refine ⟨k + 1, by simp [hk], ?_, ?_, ?_⟩
      · simp [AbstractPolygon.specCalls, hb', hmap]
      · intro e he
        simp only [AbstractPolygon.specCalls, hb', Bool.false_eq_true, if_false] at he
        cases hT : AbstractPolygon.specCalls f (f s seg).2 rest with
        | nil =>
          rw [hT] at he
          simp at he
        | cons t T =>
          rw [hT] at he hfalse
          rw [List.dropLast_cons₂] at he
          rcases List.mem_cons.mp he with h | h
          · rw [h]
          · exact hfalse e h
      · intro hlt
        have hlt' : k < rest.length := by simpa using hlt
        obtain ⟨seg', hseg'⟩ := hlast hlt'
        refine ⟨seg', ?_⟩
        simp only [AbstractPolygon.specCalls, hb', Bool.false_eq_true, if_false]
        cases hT : AbstractPolygon.specCalls f (f s seg).2 rest with
        | nil =>
          rw [hT] at hseg'
          simp at hseg'
        | cons t T =>
          rw [hT] at hseg'
          rw [List.getLast?_cons_cons]
          exact hseg'

/-! ### `Vector<T, N>` -/

theorem ltLoop_iff {N : Nat} (a p : Vector N) :
    ∀ l : List (Fin N), Vector.ltLoop a p l = true ↔ ∀ i ∈ l, a i < p i := by
  intro l
  induction l with
  | nil => simp [Vector.ltLoop]
  | cons i rest ih =>
    simp only [Vector.ltLoop, List.mem_cons, forall_eq_or_imp]
    split_ifs with h
    · simp only [Bool.false_eq_true, false_iff, not_and]
      intro h'
      exact absurd h' (not_lt.mpr h)
    · rw [ih]
      exact ⟨fun h' => ⟨not_le.mp h, h'⟩, fun h' => h'.2⟩

theorem gtLoop_iff {N : Nat} (a p : Vector N) :
    ∀ l : List (Fin N), Vector.gtLoop a p l = true ↔ ∀ i ∈ l, a i > p i := by
  intro l
  induction l with
  | nil => simp [Vector.gtLoop]
  | cons i rest ih =>
    simp only [Vector.gtLoop, List.mem_cons, forall_eq_or_imp]
    split_ifs with h
    · simp only [Bool.false_eq_true, false_iff, not_and]
      intro h'
      exact absurd h' (not_lt.mpr h)
    · rw [ih]
      exact ⟨fun h' => ⟨not_le.mp h, h'⟩, fun h' => h'.2⟩

/-- What `operator<` computes: every component is below. -/
theorem vector_lt_iff {N : Nat} (a p : Vector N) :
    Vector.lt a p = true ↔ ∀ i, a i < p i := by
  unfold Vector.lt
  rw [ltLoop_iff]
  exact ⟨fun h i => h i (List.mem_finRange i), fun h i _ => h i⟩

/-- What `operator>` computes: every component is above. -/
theorem vector_gt_iff {N : Nat} (a p : Vector N) :
    Vector.gt a p = true ↔ ∀ i, a i > p i := by
  unfold Vector.gt
  rw [gtLoop_iff]
  exact ⟨fun h i => h i (List.mem_finRange i), fun h i _ => h i⟩

/-- What `operator<=` computes: some component is below or equal. -/
theorem vector_le_iff {N : Nat} (a p : Vector N) :
    Vector.le a p = true ↔ ∃ i, a i ≤ p i := by
  unfold Vector.le
  rw [Bool.not_eq_true', ← Bool.not_eq_true, vector_gt_iff]
  push_neg
  rfl

/-- What `operator>=` computes: some component is above or equal. -/
theorem vector_ge_iff {N : Nat} (a p : Vector N) :
    Vector.ge a p = true ↔ ∃ i, a i ≥ p i := by
  unfold Vector.ge
  rw [Bool.not_eq_true', ← Bool.not_eq_true, vector_lt_iff]
  push_neg
  rfl

theorem foldl_update_add {N : Nat} (p : Vector N) :
    ∀ (l : List (Fin N)), l.Nodup → ∀ (v : Vector N) (j : Fin N),
      (l.foldl (fun v i => Function.update v i (v i + p i)) v) j =
        if j ∈ l then v j + p j else v j := by
  intro l
  induction l with
  | nil => intro _ v j; simp
  | cons a rest ih =>
    intro hnd v j
    obtain ⟨ha, hrest⟩ := List.nodup_cons.mp hnd
    rw [List.foldl_cons, ih hrest]
    by_cases hja : j = a
    · subst hja
      simp [ha]
    · simp [hja, Function.update_noteq hja]

/-- What `operator+` computes: the componentwise sum. -/
theorem vector_add_apply {N : Nat} (a p : Vector N) (i : Fin N) :
    Vector.add a p i = a i + p i := by
  unfold Vector.add Vector.addAssign
  rw [foldl_update_add p _ (List.nodup_finRange N)]
  simp [List.mem_finRange]

/-- The value the embedding takes for `operator-(const type&)`: its left operand. -/
theorem vector_sub_eq {N : Nat} (a p : Vector N) : Vector.sub a p = a := by
  unfold Vector.sub
  have h : ∀ (l : List (Fin N)) (v : Vector N),
      l.foldl (fun v i => let _difference := v i - p i; v) v = v := by
    intro l
    induction l with
    | nil => intro v; rfl
    | cons i rest ih => intro v; exact ih v
  exact h _ a

/-- The operators unrolled for `N = 2` agree with the loops over the indices. -/
theorem vec2_agrees_with_vector (a b : Vec2) :
    Vec2.lt a b = Vector.lt a.toVector b.toVector ∧
    Vec2.gt a b = Vector.gt a.toVector b.toVector ∧
    Vec2.le a b = Vector.le a.toVector b.toVector ∧
    Vec2.ge a b = Vector.ge a.toVector b.toVector ∧
    (Vec2.add a b).toVector = Vector.add a.toVector b.toVector ∧
    (Vec2.sub a b).toVector = Vector.sub a.toVector b.toVector := by
  have hfin : List.finRange 2 = [0, 1] := rfl
  have hlt : Vec2.lt a b = Vector.lt a.toVector b.toVector := by
    simp [Vec2.lt, Vector.lt, Vector.ltLoop, hfin, Vec2.toVector]
  have hgt : Vec2.gt a b = Vector.gt a.toVector b.toVector := by
    simp [Vec2.gt, Vector.gt, Vector.gtLoop, hfin, Vec2.toVector]
  refine ⟨hlt, hgt, ?_, ?_, ?_, ?_⟩
  · simp [Vec2.le, Vector.le, hgt]
  · simp [Vec2.ge, Vector.ge, hlt]
  · funext i
    rw [vector_add_apply]
    fin_cases i <;> simp [Vec2.add, Vec2.addAssign, Vec2.toVector]
  · rw [vector_sub_eq]
    rfl

/-- C11: with a callback that never signals termination, `foreachSegment` calls it on the
segments `(get(i-1), get(i))` for `i = 1 .. n-1` in increasing order, then on
`(get(n-1), get(0))` iff `closed` is true and `n > 2`, and on nothing else. -/
theorem foreachSegment_visits_all {σ : Type} (closed : Bool) (pts : List Point2)
    (f : σ → Line2 → Bool × σ) (s : σ) (hf : ∀ t seg, (f t seg).1 = false) :
    (AbstractPolygon.calls closed pts f s).map Prod.fst =
      (List.range' 1 (AbstractPolygon.size pts - 1)).map
        (fun i => AbstractPolygon.getSegment pts (i - 1) i) ++
      (if closed = true ∧ AbstractPolygon.size pts > 2
        then [AbstractPolygon.getSegment pts (AbstractPolygon.size pts - 1) 0] else []) := by
  rw [(calls_eq_specCalls closed pts f s).1, specCalls_never_true f hf]
  simp only [List.map_map]
  have hid : (Prod.fst ∘ fun seg : Line2 => (seg, false)) = id := rfl
  rw [hid, List.map_id]
  rfl

/-- Witness of C11 on the vertices `P0 = (0,0)`, `P1 = (1,0)`, `P2 = (0,1)`: closed, the calls
are on `(P0,P1)`, `(P1,P2)`, `(P2,P0)`; open, on `(P0,P1)`, `(P1,P2)`. -/
theorem foreachSegment_visits_all_witness :
    (AbstractPolygon.calls true [⟨0, 0⟩, ⟨1, 0⟩, ⟨0, 1⟩]
        (fun (t : Unit) (_ : Line2) => (false, t)) ()).map Prod.fst =
      [⟨⟨0, 0⟩, ⟨1, 0⟩, LineType.Segment⟩, ⟨⟨1, 0⟩, ⟨0, 1⟩, LineType.Segment⟩,
       ⟨⟨0, 1⟩, ⟨0, 0⟩, LineType.Segment⟩] ∧
    (AbstractPolygon.calls false [⟨0, 0⟩, ⟨1, 0⟩, ⟨0, 1⟩]
        (fun (t : Unit) (_ : Line2) => (false, t)) ()).map Prod.fst =
      [⟨⟨0, 0⟩, ⟨1, 0⟩, LineType.Segment⟩, ⟨⟨1, 0⟩, ⟨0, 1⟩, LineType.Segment⟩] :=
  ⟨(foreachSegment_visits_all true [⟨0, 0⟩, ⟨1, 0⟩, ⟨0, 1⟩]
      (fun (t : Unit) (_ : Line2) => (false, t)) () (fun _ _ => rfl)).trans
      (by simp [AbstractPolygon.size, AbstractPolygon.getSegment, AbstractPolygon.get,
            List.range']),
   (foreachSegment_visits_all false [⟨0, 0⟩, ⟨1, 0⟩, ⟨0, 1⟩]
      (fun (t : Unit) (_ : Line2) => (false, t)) () (fun _ _ => rfl)).trans
      (by simp [AbstractPolygon.size, AbstractPolygon.getSegment, AbstractPolygon.get,
            List.range'])⟩

/-- C12: the segments visited by `foreachSegment` are a prefix of the full iteration order
(wrap-around segment included); every call but the last one returned `false`, and when the
prefix is a proper one the last call returned `true`. So nothing is visited after the first
segment on which the callback returns `true`. -/
theorem foreachSegment_stops_at_first_true {σ : Type} (closed : Bool) (pts : List Point2)
    (f : σ → Line2 → Bool × σ) (s : σ) :
    AbstractPolygon.calls closed pts f s =
      AbstractPolygon.specCalls f s (AbstractPolygon.specSegments closed pts) ∧
    ∃ k, k ≤ (AbstractPolygon.specSegments closed pts).length ∧
      (AbstractPolygon.calls closed pts f s).map Prod.fst =
        (AbstractPolygon.specSegments closed pts).take k ∧
      (∀ e ∈ (AbstractPolygon.calls closed pts f s).dropLast, e.2 = false) ∧
      (k < (AbstractPolygon.specSegments closed pts).length →
        ∃ seg, (AbstractPolygon.calls closed pts f s).getLast? = some (seg, true)) := by
  refine ⟨(calls_eq_specCalls closed pts f s).1, ?_⟩
  rw [(calls_eq_specCalls closed pts f s).1]
  exact specCalls_prefix f _ s

/-- C13: after `add`, `edit`, `insert`, `remove` or `clear` the convexity flag is dirty, and
after `edit`, `remove` or `clear` the bounding-box flag is dirty too, whatever the state and
the arguments were. -/
theorem mutators_mark_dirty (s : BasePolygon) (i : Nat) (p : Point2) :
    (s.add p)._convexdirty = true ∧ (s.edit i p)._convexdirty = true ∧
    (s.insert i p)._convexdirty = true ∧ (s.remove i)._convexdirty = true ∧
    s.clear._convexdirty = true ∧
    (s.edit i p)._bboxdirty = true ∧ (s.remove i)._bboxdirty = true ∧
    s.clear._bboxdirty = true := by
  simp [BasePolygon.add, BasePolygon.edit, BasePolygon.insert, BasePolygon.remove,
    BasePolygon.clear]

/-- C14: a second `getBBox()` right after a first one returns the same box, finds the flag
clean and leaves the whole state as the first call left it; the same for `isConvex()`. -/
theorem getters_repeat (s : BasePolygon) :
    (s.getBBox.2.getBBox.1 = s.getBBox.1 ∧ s.getBBox.2._bboxdirty = false ∧
      s.getBBox.2.getBBox.2 = s.getBBox.2) ∧
    (s.isConvex.2.isConvex.1 = s.isConvex.1 ∧ s.isConvex.2._convexdirty = false ∧
      s.isConvex.2.isConvex.2 = s.isConvex.2) := by
  constructor
  · cases hd : s._bboxdirty <;> simp [BasePolygon.getBBox, hd]
  · cases hd : s._convexdirty <;> simp [BasePolygon.isConvex, hd]

/-- C15: after `clear()` the polygon has `size() == 0` and `getBBox()` returns the zero box,
whatever the cached box and the flags were. -/
theorem clear_then_getBBox (s : BasePolygon) :
    AbstractPolygon.size s.clear.pts = 0 ∧
    s.clear.getBBox.1 = ⟨⟨0, 0⟩, ⟨0, 0⟩⟩ := by
  simp [BasePolygon.clear, BasePolygon._clear, BasePolygon.getBBox, AbstractPolygon.size,
    AbstractPolygon._calculateBBox, AABB.null, Vec2.zero]

/-- C16 (failing input): with `A = (0,0,10,10)`, `B = (0,-5,1,6)` (both sizes non-negative) and
`p = (-1,-3)`, `A.contains(B)` and `B.contains(p)` are `true` and `A.contains(p)` is `false`. -/
theorem containsBox_without_point_inclusion :
    AABB.containsBox ⟨⟨0, 0⟩, ⟨10, 10⟩⟩ ⟨⟨0, -5⟩, ⟨1, 6⟩⟩ = true ∧
    AABB.contains ⟨⟨0, -5⟩, ⟨1, 6⟩⟩ ⟨-1, -3⟩ = true ∧
    AABB.contains ⟨⟨0, 0⟩, ⟨10, 10⟩⟩ ⟨-1, -3⟩ = false := by
  refine ⟨?_, ?_, ?_⟩
  · norm_num [AABB.containsBox, AABB.contains, Vec2.ge, Vec2.lt, Vec2.add, Vec2.addAssign]
  · norm_num [AABB.contains, Vec2.ge, Vec2.lt, Vec2.add, Vec2.addAssign]
  · norm_num [AABB.contains, Vec2.ge, Vec2.lt, Vec2.add, Vec2.addAssign]

/-- C17 (as stated): the zero-size box at `(1,1)` and the box `(0,0,4,4)` have a non-empty
intersection, the overlap `(1,1)`. -/
theorem intersect_zero_size_inside :
    AABB.intersect ⟨⟨1, 1⟩, ⟨0, 0⟩⟩ ⟨⟨0, 0⟩, ⟨4, 4⟩⟩ = Intersection.overlap ⟨1, 1⟩ ∧
    AABB.intersect ⟨⟨1, 1⟩, ⟨0, 0⟩⟩ ⟨⟨0, 0⟩, ⟨4, 4⟩⟩ ≠ Intersection.empty := by
  have h : AABB.intersect ⟨⟨1, 1⟩, ⟨0, 0⟩⟩ ⟨⟨0, 0⟩, ⟨4, 4⟩⟩ = Intersection.overlap ⟨1, 1⟩ := by
    norm_num [AABB.intersect, sign]
  refine ⟨h, ?_⟩
  rw [h]
  exact fun e => Intersection.noConfusion e

/-- Over exact arithmetic, for a box `Z` of size `(0,0)` and any box `B`, `Z.intersect(B)` is
empty iff the position of `Z` is not strictly inside `B` on both axes, and `B.intersect(Z)` is
empty exactly when `Z.intersect(B)` is. -/
theorem intersect_zero_size_exact (Z B : AABB) (hZ : Z.size = ⟨0, 0⟩) :
    (Z.intersect B = Intersection.empty ↔
      ¬ (B.pos.x < Z.pos.x ∧ Z.pos.x < B.pos.x + B.size.x ∧
         B.pos.y < Z.pos.y ∧ Z.pos.y < B.pos.y + B.size.y)) ∧
    (B.intersect Z = Intersection.empty ↔ Z.intersect B = Intersection.empty) := by
  have hx : 0 < specPenetrationX Z B ↔ B.pos.x < Z.pos.x ∧ Z.pos.x < B.pos.x + B.size.x := by
    unfold specPenetrationX specCenterDeltaX
    rw [hZ]
    simp only [zero_add, zero_div, add_zero, sub_pos, abs_lt]
    constructor
    · rintro ⟨h1, h2⟩
      constructor <;> linarith
    · rintro ⟨h1, h2⟩
      constructor <;> linarith
  have hy : 0 < specPenetrationY Z B ↔ B.pos.y < Z.pos.y ∧ Z.pos.y < B.pos.y + B.size.y := by
    unfold specPenetrationY specCenterDeltaY
    rw [hZ]
    simp only [zero_add, zero_div, add_zero, sub_pos, abs_lt]
    constructor
    · rintro ⟨h1, h2⟩
      constructor <;> linarith
    · rintro ⟨h1, h2⟩
      constructor <;> linarith
  constructor
  · rw [intersect_empty_iff, ← not_lt, ← not_lt, hx, hy]
    tauto
  · rw [intersect_empty_iff, intersect_empty_iff, specPenetrationX_swap Z B,
      specPenetrationY_swap Z B]

/-- C18 (failing input): for `a = (0,5)`, `b = (1,1)` the code gives `a <= b` although
`a[1] > b[1]`, and it gives `b >= a` although `b[1] < a[1]`: `<=` and `>=` are the negations
of `>` and `<`, so they hold as soon as one component satisfies. -/
theorem vector_le_ge_one_component :
    Vector.le ![0, 5] ![1, 1] = true ∧
    ¬ (∀ i : Fin 2, (![0, 5] : Vector 2) i ≤ (![1, 1] : Vector 2) i) ∧
    Vector.ge ![1, 1] ![0, 5] = true ∧
    ¬ (∀ i : Fin 2, (![1, 1] : Vector 2) i ≥ (![0, 5] : Vector 2) i) := by
  refine ⟨?_, ?_, ?_, ?_⟩
  · rw [vector_le_iff]
    exact ⟨0, by norm_num⟩
  · intro h
    have h1 := h 1
    norm_num at h1
  · rw [vector_ge_iff]
    exact ⟨0, by norm_num⟩
  · intro h
    have h1 := h 1
    norm_num at h1

/-- C19 (failing input): for `a = (3,4)`, `b = (2,2)` the value of `a - b` is `(3,4)`, the
left operand, and its component 0 is not `3 - 2`; `a + b` is the componentwise sum `(5,6)`. -/
theorem vector_sub_not_componentwise :
    Vector.sub ![3, 4] ![2, 2] = ![3, 4] ∧
    Vector.sub ![3, 4] ![2, 2] 0 ≠ (3 : ℚ) - 2 ∧
    Vector.add ![3, 4] ![2, 2] = ![5, 6] := by
  refine ⟨vector_sub_eq _ _, ?_, ?_⟩
  · rw [vector_sub_eq]
    norm_num
  · funext i
    rw [vector_add_apply]
    fin_cases i <;> norm_num

/-- C20: for integers `almostEquals(a, b)` with the default tolerance `epsilon<T>() = 0`
always returns (no division by zero) and returns `true` exactly when `a == b`. -/
theorem almostEquals_integral (a b : ℤ) :
    almostEquals a b epsilon = some (decide (a = b)) := by
  unfold almostEquals epsilon
  by_cases h : a = b
  · simp [h]
  · have hd : ¬ (|a - b| < 0) := not_lt.mpr (abs_nonneg _)
    simp only [h, if_false, hd, or_false, decide_False]
    by_cases h0 : a = 0 ∨ b = 0
    · simp [h0]
    · rw [if_neg h0]
      push_neg at h0
      have hpos : 0 < |a| + |b| := by
        have ha : 0 < |a| := abs_pos.mpr h0.1
        have hb : 0 ≤ |b| := abs_nonneg b
        linarith
      rw [if_neg (ne_of_gt hpos)]
      have hq : ¬ (Int.tdiv |a - b| (|a| + |b|) < 0) :=
        not_lt.mpr (Int.tdiv_nonneg (abs_nonneg _) (le_of_lt hpos))
      simp [hq]

/-! ### Open extents -/

theorem specPenetrationX_pos_iff (A B : AABB) :
    0 < specPenetrationX A B ↔
      A.pos.x < B.pos.x + B.size.x ∧ B.pos.x < A.pos.x + A.size.x := by
  unfold specPenetrationX specCenterDeltaX
  rw [sub_pos, abs_lt]
  constructor
  · rintro ⟨h1, h2⟩
    constructor <;> linarith
  · rintro ⟨h1, h2⟩
    constructor <;> linarith

theorem specPenetrationY_pos_iff (A B : AABB) :
    0 < specPenetrationY A B ↔
      A.pos.y < B.pos.y + B.size.y ∧ B.pos.y < A.pos.y + A.size.y := by
  unfold specPenetrationY specCenterDeltaY
  rw [sub_pos, abs_lt]
  constructor
  · rintro ⟨h1, h2⟩
    constructor <;> linarith
  · rintro ⟨h1, h2⟩
    constructor <;> linarith

/-- C21: over exact arithmetic, for boxes with non-negative sizes, `A.intersect(B)` is
non-empty iff the open extents overlap on both axes. -/
theorem intersect_nonempty_iff_open_overlap (A B : AABB)
    (_hA : 0 ≤ A.size.x ∧ 0 ≤ A.size.y) (_hB : 0 ≤ B.size.x ∧ 0 ≤ B.size.y) :
    A.intersect B ≠ Intersection.empty ↔
      (A.pos.x < B.pos.x + B.size.x ∧ B.pos.x < A.pos.x + A.size.x) ∧
      (A.pos.y < B.pos.y + B.size.y ∧ B.pos.y < A.pos.y + A.size.y) := by
  rw [Ne, intersect_empty_iff, not_or, not_le, not_le, specPenetrationX_pos_iff,
    specPenetrationY_pos_iff]

/-- Witness of C21 at `A = (0,0,4,4)`, `B = (2,1,4,4)`. -/
theorem intersect_nonempty_iff_open_overlap_witness :
    AABB.intersect ⟨⟨0, 0⟩, ⟨4, 4⟩⟩ ⟨⟨2, 1⟩, ⟨4, 4⟩⟩ ≠ Intersection.empty :=
  (intersect_nonempty_iff_open_overlap ⟨⟨0, 0⟩, ⟨4, 4⟩⟩ ⟨⟨2, 1⟩, ⟨4, 4⟩⟩
    (by norm_num) (by norm_num)).mpr (by norm_num)

/-! ### `AABB<int>` -/

theorem intersecti_empty_iff (A B : AABBi) :
    A.intersect B = Intersectioni.empty ↔
      ¬ ((A.pos.x < B.pos.x + 2 * Int.tdiv B.size.x 2 ∧
          B.pos.x < A.pos.x + 2 * Int.tdiv A.size.x 2) ∧
         (A.pos.y < B.pos.y + 2 * Int.tdiv B.size.y 2 ∧
          B.pos.y < A.pos.y + 2 * Int.tdiv A.size.y 2)) := by
  have hx : 0 < (Int.tdiv B.size.x 2 + Int.tdiv A.size.x 2) -
        |(B.pos.x + Int.tdiv B.size.x 2) - (A.pos.x + Int.tdiv A.size.x 2)| ↔
      A.pos.x < B.pos.x + 2 * Int.tdiv B.size.x 2 ∧
      B.pos.x < A.pos.x + 2 * Int.tdiv A.size.x 2 := by
    rw [sub_pos, abs_lt]
    constructor
    · rintro ⟨h1, h2⟩
      constructor <;> linarith
    · rintro ⟨h1, h2⟩
      constructor <;> linarith
  have hy : 0 < (Int.tdiv B.size.y 2 + Int.tdiv A.size.y 2) -
        |(B.pos.y + Int.tdiv B.size.y 2) - (A.pos.y + Int.tdiv A.size.y 2)| ↔
      A.pos.y < B.pos.y + 2 * Int.tdiv B.size.y 2 ∧
      B.pos.y < A.pos.y + 2 * Int.tdiv A.size.y 2 := by
    rw [sub_pos, abs_lt]
    constructor
    · rintro ⟨h1, h2⟩
      constructor <;> linarith
    · rintro ⟨h1, h2⟩
      constructor <;> linarith
  rw [← hx, ← hy]
  unfold AABBi.intersect
  simp only
  split_ifs with h1 h2
  · simp only [true_iff, not_and, not_lt]
    intro h
    exact absurd h1 (not_le.mpr h)
  · simp only [true_iff, not_and, not_lt]
    intro _
    exact h2
  · simp only [false_iff, not_not]
    exact ⟨not_le.mp h1, not_le.mp h2⟩

/-- C22 (as stated): the integer box `A = (0,0,1,1)` has strictly positive size and its open
extents overlap themselves, yet `A.intersect(A)` is empty: `1 / 2` is `0`. -/
theorem intersecti_unit_box_empty :
    AABBi.intersect ⟨⟨0, 0⟩, ⟨1, 1⟩⟩ ⟨⟨0, 0⟩, ⟨1, 1⟩⟩ = Intersectioni.empty ∧
    ((0 : ℤ) < 0 + 1 ∧ (0 : ℤ) < 0 + 1) := by
  constructor
  · rw [intersecti_empty_iff]
    decide
  · decide

/-- C22 (amended): for integer boxes with non-negative sizes (no overflow), `A.intersect(B)`
is non-empty iff the open extents overlap on both axes once every size is rounded down to an
even number, `2 * (size / 2)`; a non-empty result implies that the open extents themselves
overlap, and `A.intersect(A)` is non-empty iff both sizes of `A` are at least 2. -/
theorem intersecti_nonempty_iff (A B : AABBi)
    (hA : 0 ≤ A.size.x ∧ 0 ≤ A.size.y) (hB : 0 ≤ B.size.x ∧ 0 ≤ B.size.y) :
    (A.intersect B ≠ Intersectioni.empty ↔
      (A.pos.x < B.pos.x + 2 * Int.tdiv B.size.x 2 ∧
       B.pos.x < A.pos.x + 2 * Int.tdiv A.size.x 2) ∧
      (A.pos.y < B.pos.y + 2 * Int.tdiv B.size.y 2 ∧
       B.pos.y < A.pos.y + 2 * Int.tdiv A.size.y 2)) ∧
    (A.intersect B ≠ Intersectioni.empty →
      (A.pos.x < B.pos.x + B.size.x ∧ B.pos.x < A.pos.x + A.size.x) ∧
      (A.pos.y < B.pos.y + B.size.y ∧ B.pos.y < A.pos.y + A.size.y)) ∧
    (A.intersect A ≠ Intersectioni.empty ↔ 2 ≤ A.size.x ∧ 2 ≤ A.size.y) := by
  have e1 : Int.tdiv A.size.x 2 = A.size.x / 2 := Int.tdiv_eq_ediv hA.1 (by decide)
  have e2 : Int.tdiv A.size.y 2 = A.size.y / 2 := Int.tdiv_eq_ediv hA.2 (by decide)
  have e3 : Int.tdiv B.size.x 2 = B.size.x / 2 := Int.tdiv_eq_ediv hB.1 (by decide)
  have e4 : Int.tdiv B.size.y 2 = B.size.y / 2 := Int.tdiv_eq_ediv hB.2 (by decide)
  refine ⟨?_, ?_, ?_⟩
  · rw [Ne, intersecti_empty_iff, not_not]
  · rw [Ne, intersecti_empty_iff, not_not, e1, e2, e3, e4]
    rintro ⟨⟨h1, h2⟩, ⟨h3, h4⟩⟩
    refine ⟨⟨?_, ?_⟩, ⟨?_, ?_⟩⟩ <;> omega
  · rw [Ne, intersecti_empty_iff, not_not, e1, e2]
    constructor
    · rintro ⟨⟨h1, _⟩, ⟨h3, _⟩⟩
      constructor <;> omega
    · rintro ⟨h1, h2⟩
      refine ⟨⟨?_, ?_⟩, ⟨?_, ?_⟩⟩ <;> omega

/-- Witness of C22 (amended) at `A = (0,0,4,4)`, `B = (2,1,4,4)`: the intersection is
non-empty, and so is `A.intersect(A)`. -/
theorem intersecti_nonempty_iff_witness :
    AABBi.intersect ⟨⟨0, 0⟩, ⟨4, 4⟩⟩ ⟨⟨2, 1⟩, ⟨4, 4⟩⟩ ≠ Intersectioni.empty ∧
    AABBi.intersect ⟨⟨0, 0⟩, ⟨4, 4⟩⟩ ⟨⟨0, 0⟩, ⟨4, 4⟩⟩ ≠ Intersectioni.empty :=
  have h := intersecti_nonempty_iff ⟨⟨0, 0⟩, ⟨4, 4⟩⟩ ⟨⟨2, 1⟩, ⟨4, 4⟩⟩
    (by decide) (by decide)
  ⟨h.1.mpr (by decide), h.2.2.mpr (by decide)⟩

/-! ### `dot` and the N-dimensional `cross` -/

theorem foldl_update_const {N : Nat} (g : Fin N → ℚ) :
    ∀ (l : List (Fin N)) (v : Vector N) (j : Fin N),
      (l.foldl (fun v i => Function.update v i (g i)) v) j = if j ∈ l then g j else v j := by
  intro l
  induction l with
  | nil => intro v j; simp
  | cons a rest ih =>
    intro v j
    rw [List.foldl_cons, ih]
    by_cases hj : j ∈ rest
    · simp [hj]
    · by_cases hja : j = a
      · subst hja
        simp [hj]
      · simp [hj, hja, Function.update_noteq hja]

/-- What the N-dimensional `cross` computes at index `i`. -/
theorem vector_cross_apply {N : Nat} (a b : Vector N) (i : Fin N) :
    Vector.cross a b i = a i * b (Vector.next i) - a (Vector.next i) * b i := by
  unfold Vector.cross
  rw [foldl_update_const (fun i => a i * b (Vector.next i) - a (Vector.next i) * b i)]
  simp [List.mem_finRange]

/-- What `dot` computes for `N = 3`. -/
theorem vector_dot_three (a b : Vector 3) :
    Vector.dot a b = a 0 * b 0 + a 1 * b 1 + a 2 * b 2 := by
  have hfin : List.finRange 3 = [0, 1, 2] := rfl
  simp [Vector.dot, hfin]

/-- The components of the N-dimensional `cross` for `N = 3`: the component the cross product
has at index 2 is stored at index 0, and so on round the indices. -/
theorem vector_cross_three (a b : Vector 3) :
    Vector.cross a b 0 = a 0 * b 1 - a 1 * b 0 ∧
    Vector.cross a b 1 = a 1 * b 2 - a 2 * b 1 ∧
    Vector.cross a b 2 = a 2 * b 0 - a 0 * b 2 := by
  have n0 : Vector.next (0 : Fin 3) = 1 := rfl
  have n1 : Vector.next (1 : Fin 3) = 2 := rfl
  have n2 : Vector.next (2 : Fin 3) = 0 := rfl
  refine ⟨?_, ?_, ?_⟩
  · rw [vector_cross_apply, n0]
  · rw [vector_cross_apply, n1]
  · rw [vector_cross_apply, n2]

/-- C23 (failing input): for `a = (1,0,0)`, `b = (0,1,0)` the N-dimensional `cross` gives
`(1,0,0)` and `a.cross(b).dot(a)` is `1`, not `0`. -/
theorem vector_cross_not_orthogonal :
    Vector.cross ![1, 0, 0] ![0, 1, 0] = ![1, 0, 0] ∧
    Vector.dot (Vector.cross ![1, 0, 0] ![0, 1, 0]) ![1, 0, 0] = 1 := by
  have hc : Vector.cross ![1, 0, 0] ![0, 1, 0] = ![1, 0, 0] := by
    funext i
    obtain ⟨h0, h1, h2⟩ := vector_cross_three ![1, 0, 0] ![0, 1, 0]
    fin_cases i
    · rw [show (⟨0, by decide⟩ : Fin 3) = 0 from rfl, h0]
      norm_num
    · rw [show (⟨1, by decide⟩ : Fin 3) = 1 from rfl, h1]
      norm_num
    · rw [show (⟨2, by decide⟩ : Fin 3) = 2 from rfl, h2]
      norm_num
  refine ⟨hc, ?_⟩
  rw [hc, vector_dot_three]
  norm_num

/-! ### Touching boxes and zero-size boxes, exact and integer -/

/-- The test of `AABB<int>::intersect` written with its locals `dx`, `px`, `dy`, `py`. -/
theorem intersecti_locals (A B : AABBi) :
    A.intersect B =
      if AABBi.px A B ≤ 0 then Intersectioni.empty
      else if AABBi.py A B ≤ 0 then Intersectioni.empty
      else Intersectioni.overlap
        ⟨AABBi.px A B * signi (AABBi.dx A B), AABBi.py A B * signi (AABBi.dy A B)⟩ := rfl

theorem intersecti_touching_px (A B : AABBi) (hA : 0 ≤ A.size.x) (hB : 0 ≤ B.size.x)
    (h : B.pos.x = A.pos.x + A.size.x) : AABBi.px A B = -(A.size.x % 2) := by
  have e1 : Int.tdiv A.size.x 2 = A.size.x / 2 := Int.tdiv_eq_ediv hA (by decide)
  have e2 : Int.tdiv B.size.x 2 = B.size.x / 2 := Int.tdiv_eq_ediv hB (by decide)
  unfold AABBi.px AABBi.dx
  rw [e1, e2, h]
  have hnn : 0 ≤ A.pos.x + A.size.x + B.size.x / 2 - (A.pos.x + A.size.x / 2) := by omega
  rw [abs_of_nonneg hnn]
  omega

theorem intersecti_touching_py (A B : AABBi) (hA : 0 ≤ A.size.y) (hB : 0 ≤ B.size.y)
    (h : B.pos.y = A.pos.y + A.size.y) : AABBi.py A B = -(A.size.y % 2) := by
  have e1 : Int.tdiv A.size.y 2 = A.size.y / 2 := Int.tdiv_eq_ediv hA (by decide)
  have e2 : Int.tdiv B.size.y 2 = B.size.y / 2 := Int.tdiv_eq_ediv hB (by decide)
  unfold AABBi.py AABBi.dy
  rw [e1, e2, h]
  have hnn : 0 ≤ A.pos.y + A.size.y + B.size.y / 2 - (A.pos.y + A.size.y / 2) := by omega
  rw [abs_of_nonneg hnn]
  omega

/-- C5 (as stated): the integer boxes `A = (0,0,1,1)` and `B = (1,0,2,2)` have non-negative
sizes and touch edge to edge on x (`1 == 0 + 1`), and the penetration on x is `-1`, not `0`,
both as the code computes it and as `(A.size + B.size)/2 - |centerDelta|`; the result is
empty. -/
theorem intersecti_touching_penetration_negative :
    (1 : ℤ) = 0 + 1 ∧
    AABBi.px ⟨⟨0, 0⟩, ⟨1, 1⟩⟩ ⟨⟨1, 0⟩, ⟨2, 2⟩⟩ = -1 ∧
    Int.tdiv (1 + 2) 2 - |AABBi.dx ⟨⟨0, 0⟩, ⟨1, 1⟩⟩ ⟨⟨1, 0⟩, ⟨2, 2⟩⟩| = -1 ∧
    AABBi.px ⟨⟨0, 0⟩, ⟨1, 1⟩⟩ ⟨⟨1, 0⟩, ⟨2, 2⟩⟩ ≠ 0 ∧
    AABBi.intersect ⟨⟨0, 0⟩, ⟨1, 1⟩⟩ ⟨⟨1, 0⟩, ⟨2, 2⟩⟩ = Intersectioni.empty := by
  decide

/-- C5 (amended): boxes with non-negative sizes that touch edge to edge on an axis give the
empty result, over exact arithmetic and for `AABB<int>` (no overflow). The penetration on that
axis is exactly 0 over exact arithmetic; for `int` it is `-(A.size % 2)`, that is 0 when the
size of `A` on that axis is even and -1 when it is odd. -/
theorem intersect_touching_exact_and_int (A B : AABB)
    (hA : 0 ≤ A.size.x ∧ 0 ≤ A.size.y) (hB : 0 ≤ B.size.x ∧ 0 ≤ B.size.y)
    (h : B.pos.x = A.pos.x + A.size.x ∨ B.pos.y = A.pos.y + A.size.y)
    (Ai Bi : AABBi)
    (hAi : 0 ≤ Ai.size.x ∧ 0 ≤ Ai.size.y) (hBi : 0 ≤ Bi.size.x ∧ 0 ≤ Bi.size.y)
    (hi : Bi.pos.x = Ai.pos.x + Ai.size.x ∨ Bi.pos.y = Ai.pos.y + Ai.size.y) :
    (A.intersect B = Intersection.empty ∧
      (B.pos.x = A.pos.x + A.size.x → specPenetrationX A B = 0) ∧
      (B.pos.y = A.pos.y + A.size.y → specPenetrationY A B = 0)) ∧
    (Ai.intersect Bi = Intersectioni.empty ∧
      (Bi.pos.x = Ai.pos.x + Ai.size.x → AABBi.px Ai Bi = -(Ai.size.x % 2)) ∧
      (Bi.pos.y = Ai.pos.y + Ai.size.y → AABBi.py Ai Bi = -(Ai.size.y % 2))) := by
  refine ⟨intersect_touching_exact A B hA hB h, ?_,
    intersecti_touching_px Ai Bi hAi.1 hBi.1, intersecti_touching_py Ai Bi hAi.2 hBi.2⟩
  rw [intersecti_locals]
  rcases hi with hx | hy
  · have hpx := intersecti_touching_px Ai Bi hAi.1 hBi.1 hx
    have hle : AABBi.px Ai Bi ≤ 0 := by omega
    rw [if_pos hle]
  · have hpy := intersecti_touching_py Ai Bi hAi.2 hBi.2 hy
    have hle : AABBi.py Ai Bi ≤ 0 := by omega
    split_ifs
    · rfl
    · rfl

/-- Witness of C5 (amended) at `A = (0,0,2,2)`, `B = (2,0,2,2)`, rational and integer. -/
theorem intersect_touching_exact_and_int_witness :
    AABB.intersect ⟨⟨0, 0⟩, ⟨2, 2⟩⟩ ⟨⟨2, 0⟩, ⟨2, 2⟩⟩ = Intersection.empty ∧
    AABBi.intersect ⟨⟨0, 0⟩, ⟨2, 2⟩⟩ ⟨⟨2, 0⟩, ⟨2, 2⟩⟩ = Intersectioni.empty :=
  have h := intersect_touching_exact_and_int ⟨⟨0, 0⟩, ⟨2, 2⟩⟩ ⟨⟨2, 0⟩, ⟨2, 2⟩⟩
    (by norm_num) (by norm_num) (Or.inl (by norm_num))
    ⟨⟨0, 0⟩, ⟨2, 2⟩⟩ ⟨⟨2, 0⟩, ⟨2, 2⟩⟩ (by decide) (by decide) (Or.inl (by decide))
  ⟨h.1.1, h.2.1⟩

theorem intersecti_zero_size (Z B : AABBi) (hZ : Z.size = ⟨0, 0⟩) :
    (Z.intersect B = Intersectioni.empty ↔
      ¬ (B.pos.x < Z.pos.x ∧ Z.pos.x < B.pos.x + 2 * Int.tdiv B.size.x 2 ∧
         B.pos.y < Z.pos.y ∧ Z.pos.y < B.pos.y + 2 * Int.tdiv B.size.y 2)) ∧
    (B.intersect Z = Intersectioni.empty ↔ Z.intersect B = Intersectioni.empty) := by
  have h0 : Int.tdiv 0 2 = 0 := by decide
  constructor
  · rw [intersecti_empty_iff, hZ]
    simp only [h0, mul_zero, add_zero]
    tauto
  · rw [intersecti_empty_iff, intersecti_empty_iff, hZ]
    simp only [h0, mul_zero, add_zero]
    tauto

/-- C17 (amended): for a box `Z` of size `(0,0)` and any box `B`, over exact arithmetic
`Z.intersect(B)` is empty iff the position of `Z` is not strictly inside `B` on both axes; for
`AABB<int>` (no overflow) the same holds with each size of `B` rounded down to an even number,
`2 * (size / 2)`. In both cases `B.intersect(Z)` is empty exactly when `Z.intersect(B)` is. -/
theorem intersect_zero_size_exact_and_int (Z B : AABB) (hZ : Z.size = ⟨0, 0⟩)
    (Zi Bi : AABBi) (hZi : Zi.size = ⟨0, 0⟩) :
    ((Z.intersect B = Intersection.empty ↔
        ¬ (B.pos.x < Z.pos.x ∧ Z.pos.x < B.pos.x + B.size.x ∧
           B.pos.y < Z.pos.y ∧ Z.pos.y < B.pos.y + B.size.y)) ∧
      (B.intersect Z = Intersection.empty ↔ Z.intersect B = Intersection.empty)) ∧
    ((Zi.intersect Bi = Intersectioni.empty ↔
        ¬ (Bi.pos.x < Zi.pos.x ∧ Zi.pos.x < Bi.pos.x + 2 * Int.tdiv Bi.size.x 2 ∧
           Bi.pos.y < Zi.pos.y ∧ Zi.pos.y < Bi.pos.y + 2 * Int.tdiv Bi.size.y 2)) ∧
      (Bi.intersect Zi = Intersectioni.empty ↔ Zi.intersect Bi = Intersectioni.empty)) :=
  ⟨intersect_zero_size_exact Z B hZ, intersecti_zero_size Zi Bi hZi⟩

/-- Witness of C17 (amended): the zero-size box at `(5,5)` and `B = (0,0,4,4)` do not overlap
in rational arithmetic; the integer zero-size box at `(2,2)` and `B = (0,0,3,3)` do not overlap
either, `(2,2)` lying strictly inside `B` but not inside `B` with sizes rounded down to 2. -/
theorem intersect_zero_size_exact_and_int_witness :
    (AABB.intersect ⟨⟨5, 5⟩, ⟨0, 0⟩⟩ ⟨⟨0, 0⟩, ⟨4, 4⟩⟩ = Intersection.empty ∧
      AABB.intersect ⟨⟨0, 0⟩, ⟨4, 4⟩⟩ ⟨⟨5, 5⟩, ⟨0, 0⟩⟩ = Intersection.empty) ∧
    (AABBi.intersect ⟨⟨2, 2⟩, ⟨0, 0⟩⟩ ⟨⟨0, 0⟩, ⟨3, 3⟩⟩ = Intersectioni.empty ∧
      AABBi.intersect ⟨⟨0, 0⟩, ⟨3, 3⟩⟩ ⟨⟨2, 2⟩, ⟨0, 0⟩⟩ = Intersectioni.empty) :=
  have h := intersect_zero_size_exact_and_int ⟨⟨5, 5⟩, ⟨0, 0⟩⟩ ⟨⟨0, 0⟩, ⟨4, 4⟩⟩ rfl
    ⟨⟨2, 2⟩, ⟨0, 0⟩⟩ ⟨⟨0, 0⟩, ⟨3, 3⟩⟩ rfl
  have h1 : AABB.intersect ⟨⟨5, 5⟩, ⟨0, 0⟩⟩ ⟨⟨0, 0⟩, ⟨4, 4⟩⟩ = Intersection.empty :=
    h.1.1.mpr (by norm_num)
  have h2 : AABBi.intersect ⟨⟨2, 2⟩, ⟨0, 0⟩⟩ ⟨⟨0, 0⟩, ⟨3, 3⟩⟩ = Intersectioni.empty :=
    h.2.1.mpr (by decide)
  ⟨⟨h1, h.1.2.mpr h1⟩, ⟨h2, h.2.2.mpr h2⟩⟩

end CppMath
